import Mathlib

/-!
Verification development for the multi-sheet spreadsheet calculation engine
(`ProductionCalculationEngine`). The engine's dynamic JavaScript values,
its cell store, its regex-based reference rewriting and its `eval` of the
rewritten arithmetic expression are embedded as executable Lean functions.
JavaScript numbers are modelled as exact rationals extended with the
non-finite values `NaN`, `Infinity` and `-Infinity`; machine floating point
rounding is not modelled, but the special-value and division-by-zero
semantics of JavaScript are.
-/

namespace CalcEngine

/-- A JavaScript number: a finite value (modelled exactly as a rational)
or one of the special values `NaN`, `Infinity`, `-Infinity`. -/
inductive JSNum where
  | fin (q : ℚ)
  | nan
  | inf
  | ninf
deriving DecidableEq, Repr

/-- Non-recursive JavaScript value used as an array element in the engine
(arrays produced by range expansion are flat lists of numbers / `null`). -/
inductive JSAtom where
  | num (x : JSNum)
  | str (s : String)
  | anull
  | aundef
deriving DecidableEq, Repr

/-- A JavaScript value as stored in the engine's cell store or produced by
evaluating a rewritten formula: a number, a string, a (flat) array,
`null`, or `undefined`. -/
inductive JSVal where
  | num (x : JSNum)
  | str (s : String)
  | arr (xs : List JSAtom)
  | null
  | undef
deriving DecidableEq, Repr

namespace JSNum

/-- JavaScript `isNaN` on a number. -/
def isNaNb : JSNum → Bool
  | nan => true
  | _ => false

/-- JavaScript addition on numbers. -/
def add : JSNum → JSNum → JSNum
  | fin a, fin b => fin (a + b)
  | nan, _ => nan
  | _, nan => nan
  | inf, ninf => nan
  | ninf, inf => nan
  | inf, _ => inf
  | _, inf => inf
  | ninf, _ => ninf
  | _, ninf => ninf

/-- JavaScript negation on numbers. -/
def neg : JSNum → JSNum
  | fin a => fin (-a)
  | nan => nan
  | inf => ninf
  | ninf => inf

/-- JavaScript subtraction on numbers. -/
def sub (a b : JSNum) : JSNum := add a (neg b)

/-- JavaScript multiplication on numbers. -/
def mul : JSNum → JSNum → JSNum
  | fin a, fin b => fin (a * b)
  | nan, _ => nan
  | _, nan => nan
  | inf, fin b => if b = 0 then nan else if 0 < b then inf else ninf
  | fin a, inf => if a = 0 then nan else if 0 < a then inf else ninf
  | ninf, fin b => if b = 0 then nan else if 0 < b then ninf else inf
  | fin a, ninf => if a = 0 then nan else if 0 < a then ninf else inf
  | inf, inf => inf
  | inf, ninf => ninf
  | ninf, inf => ninf
  | ninf, ninf => inf

/-- JavaScript division on numbers; division by zero yields `NaN` for
`0/0` and a signed infinity otherwise (signed zero is not modelled). -/
def div : JSNum → JSNum → JSNum
  | fin a, fin b =>
      if b = 0 then (if a = 0 then nan else if 0 < a then inf else ninf)
      else fin (a / b)
  | nan, _ => nan
  | _, nan => nan
  | inf, fin _ => inf
  | ninf, fin _ => ninf
  | fin _, inf => fin 0
  | fin _, ninf => fin 0
  | inf, inf => nan
  | inf, ninf => nan
  | ninf, inf => nan
  | ninf, ninf => nan

/-- JavaScript `Math.abs`. -/
def absJ : JSNum → JSNum
  | fin a => fin |a|
  | nan => nan
  | inf => inf
  | ninf => inf

/-- JavaScript `Math.round`: half-way cases round toward positive
infinity, i.e. `Math.round x = ⌊x + 1/2⌋` on finite values. -/
def roundJ : JSNum → JSNum
  | fin a => fin (⌊a + 1/2⌋ : ℤ)
  | nan => nan
  | inf => inf
  | ninf => ninf

/-- JavaScript `Math.max` of two numbers (no `NaN` handling needed by the
engine, which filters `NaN` out first, but modelled anyway). -/
def maxJ : JSNum → JSNum → JSNum
  | nan, _ => nan
  | _, nan => nan
  | inf, _ => inf
  | _, inf => inf
  | ninf, b => b
  | a, ninf => a
  | fin a, fin b => fin (max a b)

/-- JavaScript `Math.min` of two numbers. -/
def minJ : JSNum → JSNum → JSNum
  | nan, _ => nan
  | _, nan => nan
  | ninf, _ => ninf
  | _, ninf => ninf
  | inf, b => b
  | a, inf => a
  | fin a, fin b => fin (min a b)

/-- Numeric strict comparison `a > b` against a rational bound, as the
input normalizer uses it (`NaN` compares false). -/
def gtQ : JSNum → ℚ → Bool
  | fin a, c => decide (c < a)
  | nan, _ => false
  | inf, _ => true
  | ninf, _ => false

end JSNum

/-- Decimal digit character for `n < 10`. -/
def digitChar (n : ℕ) : Char := Char.ofNat (48 + n)

/-- Decimal representation of a natural number as characters, most
significant digit first; `fuel` bounds the recursion and is always given
as at least `n + 1`. -/
def natReprAux : ℕ → ℕ → List Char
  | 0, _ => []
  | fuel + 1, n =>
    if n < 10 then [digitChar n]
    else natReprAux fuel (n / 10) ++ [digitChar (n % 10)]

/-- Decimal representation of a natural number. -/
def natReprL (n : ℕ) : List Char := natReprAux (n + 1) n

/-- Decimal representation of an integer (JavaScript `String(n)` for an
integral number). -/
def intReprL (n : ℤ) : List Char :=
  if n < 0 then '-' :: natReprL n.natAbs else natReprL n.natAbs

/-- Exact textual representation of a rational: plain decimal digits for
integers, and a parenthesised exact quotient otherwise.  JavaScript
prints a shortest-round-tripping decimal for a float; what matters for
the engine is that the printed text evaluates back to the same number,
which this representation preserves exactly on rationals. -/
def ratReprL (q : ℚ) : List Char :=
  if q.den = 1 then intReprL q.num
  else '(' :: intReprL q.num ++ '/' :: natReprL q.den ++ [')']

/-- JavaScript `String(x)` for a number, as interpolated into the
rewritten formula text. -/
def numReprL : JSNum → List Char
  | JSNum.fin q => ratReprL q
  | JSNum.nan => ['N', 'a', 'N']
  | JSNum.inf => ['I', 'n', 'f', 'i', 'n', 'i', 't', 'y']
  | JSNum.ninf => ['-', 'I', 'n', 'f', 'i', 'n', 'i', 't', 'y']

/-- `JSON.stringify` of one array element produced by range expansion:
non-finite numbers serialize as `null`. -/
def jsonNumL : JSNum → List Char
  | JSNum.fin q => ratReprL q
  | _ => ['n', 'u', 'l', 'l']

/-- `JSON.stringify` of the flat numeric array produced by range
expansion, e.g. `[5,15]`. -/
def jsonArrL (xs : List JSNum) : List Char :=
  match xs with
  | [] => ['[', ']']
  | x :: rest =>
    '[' :: (rest.foldl (fun acc y => acc ++ ',' :: jsonNumL y) (jsonNumL x)) ++ [']']

/-- The engine's cell store `this.calculatedCells`: association list with
the most recent write first (emulating `Map.set` overwrite). -/
abbrev Store := List (String × JSVal)

/-- `setCellValue`: stores the value under the sheet-qualified key and
also under the bare cell key for same-sheet lookups. -/
def setCellValue (sheetName cell : String) (value : JSVal) (st : Store) : Store :=
  (cell, value) :: (sheetName ++ "!" ++ cell, value) :: st

/-- `getCellValue`: qualified key first, then the bare key, defaulting to
`0` for missing values. -/
def getCellValue (sheetName cell : String) (st : Store) : JSVal :=
  match st.lookup (sheetName ++ "!" ++ cell) with
  | some v => v
  | none =>
    match st.lookup cell with
    | some v => v
    | none => JSVal.num (JSNum.fin 0)

/-- Character class `\w` of JavaScript regexes: `[A-Za-z0-9_]`. -/
def isWordChar (c : Char) : Bool := c.isAlpha || c.isDigit || c = '_'

/-- Character class of the sheet-name group in the qualified-reference
regex: `[A-Za-z0-9_\.]`. -/
def isQualChar (c : Char) : Bool := c.isAlpha || c.isDigit || c = '_' || c = '.'

/-- Numeric value of a decimal digit character. -/
def digitVal (c : Char) : ℕ := c.toNat - 48

/-- `parseInt` on a run of decimal digit characters. -/
def digitsToNat (l : List Char) : ℕ := l.foldl (fun a c => 10 * a + digitVal c) 0

/-- First match of the regex `/([A-Z]+)(\d+)/` in a character list,
returning the two capture groups (column letters, row digits).  The
leftmost match wins; since the two character classes are disjoint, the
greedy runs are exactly the maximal runs. -/
def findCellMatch : List Char → Option (List Char × List Char)
  | [] => none
  | c :: cs =>
    let u := (c :: cs).takeWhile Char.isUpper
    let d := ((c :: cs).dropWhile Char.isUpper).takeWhile Char.isDigit
    if u.isEmpty || d.isEmpty then findCellMatch cs else some (u, d)

/-- `evaluateRange`: parse the two endpoint cells, then collect, in row
order over `[startRow, endRow]`, the numeric values stored in the start
column on the current sheet, skipping any cell whose stored value is not
a number or is `NaN`.  The end column is ignored, as in the source. -/
def evaluateRange (st : Store) (startCell endCell sheetName : String) : List JSNum :=
  match findCellMatch startCell.data, findCellMatch endCell.data with
  | some (startCol, d1), some (_, d2) =>
    let startRow := digitsToNat d1
    let endRow := digitsToNat d2
    (List.range' startRow (endRow + 1 - startRow)).foldl
      (fun values row =>
        match getCellValue sheetName ((startCol ++ natReprL row).asString) st with
        | JSVal.num x => if x.isNaNb then values else values ++ [x]
        | _ => values)
      []
  | _, _ => []

/-- The value interpolation used when a cell reference is substituted
into the formula text: numbers are inserted literally, strings are
inserted quoted, anything else is inserted as `0`. -/
def renderCellValue : JSVal → List Char
  | JSVal.num x => numReprL x
  | JSVal.str s => '"' :: s.data ++ ['"']
  | _ => ['0']

/-- Match of the range regex `/([A-Z]+)(\d+):([A-Z]+)(\d+)/` anchored at
the head of the list, returning the four capture groups and the rest. -/
def rangeMatchAt (l : List Char) : Option ((List Char × List Char × List Char × List Char) × List Char) :=
  let u1 := l.takeWhile Char.isUpper
  let r1 := l.dropWhile Char.isUpper
  if u1.isEmpty then none else
  let d1 := r1.takeWhile Char.isDigit
  let r2 := r1.dropWhile Char.isDigit
  if d1.isEmpty then none else
  match r2 with
  | ':' :: r3 =>
    let u2 := r3.takeWhile Char.isUpper
    let r4 := r3.dropWhile Char.isUpper
    if u2.isEmpty then none else
    let d2 := r4.takeWhile Char.isDigit
    let r5 := r4.dropWhile Char.isDigit
    if d2.isEmpty then none else
    some ((u1, d1, u2, d2), r5)
  | _ => none

/-- Global replace of range tokens (first rewriting pass): each matched
range is replaced by the JSON serialization of its expanded numeric
values.  Fuel-indexed scan of the text; the initial fuel `length + 1`
always suffices since every step consumes at least one character. -/
def rangeReplaceAux (st : Store) (sheetName : String) : ℕ → List Char → List Char
  | 0, l => l
  | _, [] => []
  | fuel + 1, c :: cs =>
    match rangeMatchAt (c :: cs) with
    | some ((u1, d1, u2, d2), rest) =>
      jsonArrL (evaluateRange st (u1 ++ d1).asString (u2 ++ d2).asString sheetName)
        ++ rangeReplaceAux st sheetName fuel rest
    | none => c :: rangeReplaceAux st sheetName fuel cs

/-- Range-token rewriting pass over a formula text. -/
def rangeReplace (st : Store) (sheetName : String) (l : List Char) : List Char :=
  rangeReplaceAux st sheetName (l.length + 1) l

/-- Match of the qualified-reference regex
`/([A-Za-z0-9_\.]+)!([A-Z]+\d+)/` anchored at the head, returning the
interpolated replacement text and the rest. -/
def qualMatchAt (st : Store) (l : List Char) : Option (List Char × List Char) :=
  let g1 := l.takeWhile isQualChar
  let r1 := l.dropWhile isQualChar
  if g1.isEmpty then none else
  match r1 with
  | '!' :: r2 =>
    let u := r2.takeWhile Char.isUpper
    let r3 := r2.dropWhile Char.isUpper
    if u.isEmpty then none else
    let d := r3.takeWhile Char.isDigit
    let r4 := r3.dropWhile Char.isDigit
    if d.isEmpty then none else
    some (renderCellValue (getCellValue g1.asString (u ++ d).asString st), r4)
  | _ => none

/-- Global replace of sheet-qualified references (second pass). -/
def qualReplaceAux (st : Store) : ℕ → List Char → List Char
  | 0, l => l
  | _, [] => []
  | fuel + 1, c :: cs =>
    match qualMatchAt st (c :: cs) with
    | some (repl, rest) => repl ++ qualReplaceAux st fuel rest
    | none => c :: qualReplaceAux st fuel cs

/-- Sheet-qualified reference rewriting pass over a formula text. -/
def qualReplace (st : Store) (l : List Char) : List Char :=
  qualReplaceAux st (l.length + 1) l

/-- The `\b` word-boundary test before a match: start of text or a
non-word previous character. -/
def prevBoundary : Option Char → Bool
  | none => true
  | some c => !isWordChar c

/-- The `\b` word-boundary test after a match: end of text or a
non-word next character. -/
def nextBoundary : List Char → Bool
  | [] => true
  | c :: _ => !isWordChar c

/-- Match of the bare-reference regex `/\b([A-Z]+\d+)\b/` anchored at
the head given the previous original character, returning the
replacement, the last original character consumed, and the rest. -/
def bareMatchAt (st : Store) (sheetName : String) (prev : Option Char) (l : List Char) :
    Option (List Char × Char × List Char) :=
  if prevBoundary prev then
    let u := l.takeWhile Char.isUpper
    let r1 := l.dropWhile Char.isUpper
    if u.isEmpty then none else
    let d := r1.takeWhile Char.isDigit
    let r2 := r1.dropWhile Char.isDigit
    if d.isEmpty then none else
    if nextBoundary r2 then
      some (renderCellValue (getCellValue sheetName (u ++ d).asString st), d.getLastD '0', r2)
    else none
  else none

/-- Global replace of bare cell references (third pass).  The word
boundaries are evaluated against the original text, so the previous
original character is threaded through the scan. -/
def bareReplaceAux (st : Store) (sheetName : String) : ℕ → Option Char → List Char → List Char
  | 0, _, l => l
  | _, _, [] => []
  | fuel + 1, prev, c :: cs =>
    match bareMatchAt st sheetName prev (c :: cs) with
    | some (repl, lastc, rest) => repl ++ bareReplaceAux st sheetName fuel (some lastc) rest
    | none => c :: bareReplaceAux st sheetName fuel (some c) cs

/-- Bare cell reference rewriting pass over a formula text. -/
def bareReplace (st : Store) (sheetName : String) (l : List Char) : List Char :=
  bareReplaceAux st sheetName (l.length + 1) none l

/-- The three reference-substitution passes of `evaluateFormula`, in the
source's order: ranges, then sheet-qualified references, then bare
references. -/
def rewriteRefs (st : Store) (sheetName : String) (l : List Char) : List Char :=
  bareReplace st sheetName (qualReplace st (rangeReplace st sheetName l))

/-- Global literal substring replacement (JavaScript
`String.replace(/PAT/g, repl)` for a fixed pattern): leftmost,
non-overlapping, replacement text is not rescanned within the pass. -/
def replaceSubAux (pat repl : List Char) : ℕ → List Char → List Char
  | 0, l => l
  | _, [] => []
  | fuel + 1, c :: cs =>
    if pat.isPrefixOf (c :: cs) then repl ++ replaceSubAux pat repl fuel ((c :: cs).drop pat.length)
    else c :: replaceSubAux pat repl fuel cs

/-- Global literal substring replacement over a text. -/
def replaceSubL (pat repl l : List Char) : List Char :=
  replaceSubAux pat repl (l.length + 1) l

/-- The spreadsheet function names recognized by the rewriter, in the
source's replacement order. -/
def fnNames : List String :=
  ["SUM", "AVERAGE", "MAX", "MIN", "IF", "ROUND", "ABS", "COUNT", "COUNTA"]

/-- The sequence of function-name rewrites `FN(` →
`this.excelFunctions.FN(`, applied in order after reference
substitution. -/
def fnReplace (l : List Char) : List Char :=
  fnNames.foldl
    (fun acc name =>
      replaceSubL (name.data ++ ['(']) (("this.excelFunctions." ++ name).data ++ ['(']) acc)
    l

/-- Lift an array element back to a value. -/
def JSAtom.toVal : JSAtom → JSVal
  | JSAtom.num x => JSVal.num x
  | JSAtom.str s => JSVal.str s
  | JSAtom.anull => JSVal.null
  | JSAtom.aundef => JSVal.undef

/-- Convert an evaluated value to an array element (the engine's arrays
come only from flat JSON range literals, so nesting does not occur; a
nested array is recorded as `undefined`). -/
def JSVal.toAtom : JSVal → JSAtom
  | JSVal.num x => JSAtom.num x
  | JSVal.str s => JSAtom.str s
  | JSVal.null => JSAtom.anull
  | JSVal.undef => JSAtom.aundef
  | JSVal.arr _ => JSAtom.aundef

/-- JavaScript `ToNumber` for the values the engine manipulates.  String
numeric parsing is modelled only for plain digit strings (the engine
never relies on it); arrays coerce to `NaN` here, a fragment the engine
never exercises. -/
def JSVal.toNumber : JSVal → JSNum
  | JSVal.num x => x
  | JSVal.null => JSNum.fin 0
  | JSVal.undef => JSNum.nan
  | JSVal.str s =>
    if s = "" then JSNum.fin 0
    else if s.data.all Char.isDigit then JSNum.fin (digitsToNat s.data)
    else JSNum.nan
  | JSVal.arr _ => JSNum.nan

/-- JavaScript truthiness. -/
def JSVal.truthy : JSVal → Bool
  | JSVal.num (JSNum.fin q) => !(q = 0)
  | JSVal.num JSNum.nan => false
  | JSVal.num _ => true
  | JSVal.str s => !(s = "")
  | JSVal.arr _ => true
  | JSVal.null => false
  | JSVal.undef => false

/-- JavaScript `ToString` for the values the engine manipulates. -/
def JSVal.toStr : JSVal → String
  | JSVal.num x => (numReprL x).asString
  | JSVal.str s => s
  | JSVal.null => "null"
  | JSVal.undef => "undefined"
  | JSVal.arr xs =>
    String.intercalate ","
      (xs.map fun a =>
        match a with
        | JSAtom.num x => (numReprL x).asString
        | JSAtom.str s => s
        | _ => "")

/-- JavaScript `+` on evaluated values: string concatenation when either
operand is a string (or an array, which hits `ToPrimitive`), numeric
addition otherwise. -/
def jsAddV (a b : JSVal) : JSVal :=
  match a, b with
  | JSVal.str _, _ => JSVal.str (a.toStr ++ b.toStr)
  | _, JSVal.str _ => JSVal.str (a.toStr ++ b.toStr)
  | JSVal.arr _, _ => JSVal.str (a.toStr ++ b.toStr)
  | _, JSVal.arr _ => JSVal.str (a.toStr ++ b.toStr)
  | _, _ => JSVal.num (JSNum.add a.toNumber b.toNumber)

/-- JavaScript `-` on evaluated values (always numeric). -/
def jsSubV (a b : JSVal) : JSVal := JSVal.num (JSNum.sub a.toNumber b.toNumber)

/-- JavaScript `*` on evaluated values. -/
def jsMulV (a b : JSVal) : JSVal := JSVal.num (JSNum.mul a.toNumber b.toNumber)

/-- JavaScript `/` on evaluated values. -/
def jsDivV (a b : JSVal) : JSVal := JSVal.num (JSNum.div a.toNumber b.toNumber)

/-- JavaScript unary `-`. -/
def jsNegV (a : JSVal) : JSVal := JSVal.num (JSNum.neg a.toNumber)

/-- JavaScript `Array.prototype.flat()` at depth 1 over an argument
list. -/
def flat1 : List JSVal → List JSVal
  | [] => []
  | JSVal.arr xs :: rest => xs.map JSAtom.toVal ++ flat1 rest
  | v :: rest => v :: flat1 rest

/-- The numeric-argument filter shared by the aggregate functions:
`args.flat().filter(v => typeof v === 'number' && !isNaN(v))`. -/
def numericArgs (args : List JSVal) : List JSNum :=
  (flat1 args).filterMap fun v =>
    match v with
    | JSVal.num x => if x.isNaNb then none else some x
    | _ => none

namespace excelFunctions

/-- `SUM`: sum of the numeric arguments, `0` for none. -/
def SUM (args : List JSVal) : JSVal :=
  JSVal.num ((numericArgs args).foldl JSNum.add (JSNum.fin 0))

/-- `AVERAGE`: mean of the numeric arguments, `0` for none. -/
def AVERAGE (args : List JSVal) : JSVal :=
  let nums := numericArgs args
  if nums.length > 0 then
    JSVal.num (JSNum.div (nums.foldl JSNum.add (JSNum.fin 0)) (JSNum.fin nums.length))
  else JSVal.num (JSNum.fin 0)

/-- `MAX`: `Math.max` over the numeric arguments, `0` for none. -/
def MAX (args : List JSVal) : JSVal :=
  let nums := numericArgs args
  if nums.length > 0 then JSVal.num (nums.foldl JSNum.maxJ JSNum.ninf)
  else JSVal.num (JSNum.fin 0)

/-- `MIN`: `Math.min` over the numeric arguments, `0` for none. -/
def MIN (args : List JSVal) : JSVal :=
  let nums := numericArgs args
  if nums.length > 0 then JSVal.num (nums.foldl JSNum.minJ JSNum.inf)
  else JSVal.num (JSNum.fin 0)

/-- `IF(condition, trueValue, falseValue)`: plain ternary on JavaScript
truthiness. -/
def IF (args : List JSVal) : JSVal :=
  if (args.getD 0 JSVal.undef).truthy then args.getD 1 JSVal.undef else args.getD 2 JSVal.undef

/-- Core of `ROUND` for a number and an integral `decimals` value:
`decimals == 0` uses `Math.round`; otherwise the value is scaled by
`10^|decimals|`, rounded, and unscaled (dividing back for positive
`decimals`, multiplying back for negative ones). -/
def ROUNDcore (n : JSNum) (d : ℤ) : JSNum :=
  if d = 0 then JSNum.roundJ n
  else
    let factor : JSNum := JSNum.fin ((10 : ℚ) ^ d.natAbs)
    if d < 0 then JSNum.mul (JSNum.roundJ (JSNum.div n factor)) factor
    else JSNum.div (JSNum.roundJ (JSNum.mul n factor)) factor

/-- `ROUND(number, decimals)`.  Modelled for integral `decimals` (the
only shape the workbook's formulas produce); a non-integral `decimals`
is reported as an evaluation failure rather than modelling
`Math.pow` on non-integers. -/
def ROUND (args : List JSVal) : Option JSVal :=
  let n := (args.getD 0 JSVal.undef).toNumber
  match (args.getD 1 JSVal.undef).toNumber with
  | JSNum.fin q => if q.den = 1 then some (JSVal.num (ROUNDcore n q.num)) else none
  | _ => none

/-- `ABS(number)`. -/
def ABS (args : List JSVal) : JSVal :=
  JSVal.num (JSNum.absJ (args.getD 0 JSVal.undef).toNumber)

/-- `COUNT`: number of numeric arguments. -/
def COUNT (args : List JSVal) : JSVal :=
  JSVal.num (JSNum.fin (numericArgs args).length)

/-- `COUNTA`: number of flattened arguments that are not `null`,
`undefined`, or the empty string. -/
def COUNTA (args : List JSVal) : JSVal :=
  JSVal.num (JSNum.fin
    ((flat1 args).filter fun v =>
      !(v = JSVal.null) && !(v = JSVal.undef) && !(v = JSVal.str "")).length)

end excelFunctions

/-- Dispatch of a rewritten `this.excelFunctions.NAME(...)` call. -/
def applyFn (name : String) (args : List JSVal) : Option JSVal :=
  match name with
  | "SUM" => some (excelFunctions.SUM args)
  | "AVERAGE" => some (excelFunctions.AVERAGE args)
  | "MAX" => some (excelFunctions.MAX args)
  | "MIN" => some (excelFunctions.MIN args)
  | "IF" => some (excelFunctions.IF args)
  | "ROUND" => excelFunctions.ROUND args
  | "ABS" => some (excelFunctions.ABS args)
  | "COUNT" => some (excelFunctions.COUNT args)
  | "COUNTA" => some (excelFunctions.COUNTA args)
  | _ => none

/-- Skip blanks in the rewritten expression text. -/
def skipWs (l : List Char) : List Char := l.dropWhile fun c => c = ' ' || c = '\t'

/-- Identifier characters for the rewritten function-call heads and the
global names `null` / `NaN` / `Infinity` / `undefined`. -/
def isIdentChar (c : Char) : Bool := c.isAlpha || c.isDigit || c = '_' || c = '.' || c = '$'

end CalcEngine

namespace CalcEngine

mutual

/-- Parse-and-evaluate an additive expression of the rewritten formula
text (models the relevant fragment of the JavaScript `eval`; `none`
models a thrown evaluation error). -/
def parseAddSub : ℕ → List Char → Option (JSVal × List Char)
  | 0, _ => none
  | fuel + 1, l =>
    match parseMulDiv fuel l with
    | some (v, r) => parseAddSubRest fuel v r
    | none => none

/-- Left-associated chain of `+` / `-` continuations. -/
def parseAddSubRest : ℕ → JSVal → List Char → Option (JSVal × List Char)
  | 0, _, _ => none
  | fuel + 1, acc, l =>
    match skipWs l with
    | '+' :: r =>
      match parseMulDiv fuel r with
      | some (v, r2) => parseAddSubRest fuel (jsAddV acc v) r2
      | none => none
    | '-' :: r =>
      match parseMulDiv fuel r with
      | some (v, r2) => parseAddSubRest fuel (jsSubV acc v) r2
      | none => none
    | rest => some (acc, rest)

/-- Parse-and-evaluate a multiplicative expression. -/
def parseMulDiv : ℕ → List Char → Option (JSVal × List Char)
  | 0, _ => none
  | fuel + 1, l =>
    match parseUnary fuel l with
    | some (v, r) => parseMulDivRest fuel v r
    | none => none

/-- Left-associated chain of `*` / `/` continuations. -/
def parseMulDivRest : ℕ → JSVal → List Char → Option (JSVal × List Char)
  | 0, _, _ => none
  | fuel + 1, acc, l =>
    match skipWs l with
    | '*' :: r =>
      match parseUnary fuel r with
      | some (v, r2) => parseMulDivRest fuel (jsMulV acc v) r2
      | none => none
    | '/' :: r =>
      match parseUnary fuel r with
      | some (v, r2) => parseMulDivRest fuel (jsDivV acc v) r2
      | none => none
    | rest => some (acc, rest)

/-- Unary `-` / `+` prefixes. -/
def parseUnary : ℕ → List Char → Option (JSVal × List Char)
  | 0, _ => none
  | fuel + 1, l =>
    match skipWs l with
    | '-' :: r =>
      match parseUnary fuel r with
      | some (v, r2) => some (jsNegV v, r2)
      | none => none
    | '+' :: r =>
      match parseUnary fuel r with
      | some (v, r2) => some (JSVal.num v.toNumber, r2)
      | none => none
    | rest => parseAtom fuel rest

/-- Atoms: parenthesised expressions, JSON array literals, quoted
strings, number literals, the special globals, and rewritten
`this.excelFunctions.NAME(...)` calls.  Any other shape is an
evaluation error. -/
def parseAtom : ℕ → List Char → Option (JSVal × List Char)
  | 0, _ => none
  | fuel + 1, l =>
    match l with
    | '(' :: r =>
      match parseAddSub fuel r with
      | some (v, r2) =>
        match skipWs r2 with
        | ')' :: r3 => some (v, r3)
        | _ => none
      | none => none
    | '[' :: r =>
      (match skipWs r with
       | ']' :: r2 => some (JSVal.arr [], r2)
       | _ =>
         match parseElems fuel r with
         | some (vs, r2) => some (JSVal.arr (vs.map JSVal.toAtom), r2)
         | none => none)
    | '"' :: r =>
      let s := r.takeWhile fun c => !(c = '"')
      (match r.dropWhile (fun c => !(c = '"')) with
       | '"' :: r2 => some (JSVal.str s.asString, r2)
       | _ => none)
    | c :: _ =>
      if c.isDigit then
        let ds := l.takeWhile Char.isDigit
        let r1 := l.dropWhile Char.isDigit
        (match r1 with
         | '.' :: r2 =>
           let fs := r2.takeWhile Char.isDigit
           let r3 := r2.dropWhile Char.isDigit
           some (JSVal.num (JSNum.fin ((digitsToNat ds : ℚ) +
             (digitsToNat fs : ℚ) / (10 : ℚ) ^ fs.length)), r3)
         | _ => some (JSVal.num (JSNum.fin (digitsToNat ds)), r1))
      else if isIdentChar c then
        let id := l.takeWhile isIdentChar
        let r1 := l.dropWhile isIdentChar
        if id = "null".data then some (JSVal.null, r1)
        else if id = "undefined".data then some (JSVal.undef, r1)
        else if id = "NaN".data then some (JSVal.num JSNum.nan, r1)
        else if id = "Infinity".data then some (JSVal.num JSNum.inf, r1)
        else if ("this.excelFunctions.".data).isPrefixOf id then
          let fname := (id.drop 20).asString
          (match skipWs r1 with
           | '(' :: r2 =>
             (match parseArgs fuel r2 with
              | some (args, r3) =>
                (match applyFn fname args with
                 | some v => some (v, r3)
                 | none => none)
              | none => none)
           | _ => none)
        else none
      else none
    | [] => none

/-- Argument list after the opening parenthesis of a call. -/
def parseArgs : ℕ → List Char → Option (List JSVal × List Char)
  | 0, _ => none
  | fuel + 1, l =>
    match skipWs l with
    | ')' :: r => some ([], r)
    | rest =>
      match parseAddSub fuel rest with
      | some (v, r) => parseArgsRest fuel [v] r
      | none => none

/-- Remaining comma-separated call arguments. -/
def parseArgsRest : ℕ → List JSVal → List Char → Option (List JSVal × List Char)
  | 0, _, _ => none
  | fuel + 1, acc, l =>
    match skipWs l with
    | ')' :: r => some (acc, r)
    | ',' :: r =>
      match parseAddSub fuel r with
      | some (v, r2) => parseArgsRest fuel (acc ++ [v]) r2
      | none => none
    | _ => none

/-- Array elements after the opening bracket of a JSON array literal. -/
def parseElems : ℕ → List Char → Option (List JSVal × List Char)
  | 0, _ => none
  | fuel + 1, l =>
    match parseAddSub fuel l with
    | some (v, r) => parseElemsRest fuel [v] r
    | none => none

/-- Remaining comma-separated array elements. -/
def parseElemsRest : ℕ → List JSVal → List Char → Option (List JSVal × List Char)
  | 0, _, _ => none
  | fuel + 1, acc, l =>
    match skipWs l with
    | ']' :: r => some (acc, r)
    | ',' :: r =>
      match parseAddSub fuel r with
      | some (v, r2) => parseElemsRest fuel (acc ++ [v]) r2
      | none => none
    | _ => none

end

/-- The JavaScript `eval` of a rewritten formula text, modelled on the
expression fragment those texts inhabit.  `none` models a thrown
error (syntax error, unknown identifier); `eval` of an empty text
yields `undefined`. -/
def evalJS (l : List Char) : Option JSVal :=
  if (skipWs l).isEmpty then some JSVal.undef
  else
    match parseAddSub (5 * l.length + 20) l with
    | some (v, r) => if (skipWs r).isEmpty then some v else none
    | none => none

/-- A named-input declaration from the workbook description's `inputs`
catalogue: target sheet and cell, and an optional default value. -/
structure InputDef where
  sheet : String
  cell : String
  default : Option JSVal
deriving DecidableEq, Repr

/-- A static-value cell declaration (`{cell, value}`; a YAML `null`
value is `JSVal.null`). -/
structure StaticValueDef where
  cell : String
  value : JSVal
deriving DecidableEq, Repr

/-- A formula cell declaration (`{cell, formula}`). -/
structure FormulaDef where
  cell : String
  formula : String
deriving DecidableEq, Repr

/-- One sheet of the workbook description. -/
structure SheetData where
  static_values : List StaticValueDef
  formulas : List FormulaDef
deriving DecidableEq, Repr

/-- The loaded workbook description (`this.excelData`): sheets and the
named-input catalogue, both in document order. -/
structure Workbook where
  sheets : List (String × SheetData)
  inputs : List (String × InputDef)
deriving DecidableEq, Repr

/-- The fixed legacy-to-canonical input key mapping
(`fieldNameMapping`), in the source's declaration order. -/
def fieldNameMapping : List (String × String) :=
  [("company_name", "applicant_name"),
   ("contact_person", "pan"),
   ("company_address", "center"),
   ("business_sector", "emp_name"),
   ("nature_of_business", "rm_name"),
   ("wc_loan_amount", "credit_limit"),
   ("wc_interest_rate", "proposed_roi"),
   ("processing_fees", "processing_fee"),
   ("wc_percentage", "conversion_charges"),
   ("num_skilled_workers", "partner_count"),
   ("skilled_worker_salary", "partner_salary"),
   ("num_semi_skilled_workers", "manager_count"),
   ("semi_skilled_worker_salary", "manager_salary"),
   ("num_unskilled_workers", "staff_count"),
   ("unskilled_worker_salary", "staff_salary"),
   ("monthly_power_charges", "electricity"),
   ("rent_increment_multiplier", "rent"),
   ("sales_growth_multiplier", "growth_rate"),
   ("turnover_months_year_1", "year1_months"),
   ("turnover_months_year_2", "year2_months"),
   ("monthly_rent", "marketing_expenses"),
   ("power_charges_increment_multiplier", "other_expenses")]

/-- Caller-supplied named input data (a JavaScript object modelled as an
association list; property overwrite is modelled by prepending, lookup
takes the most recent binding). -/
abbrev InputData := List (String × JSVal)

/-- JavaScript object property assignment. -/
def setProp (k : String) (v : JSVal) (m : InputData) : InputData := (k, v) :: m

/-- Property access distinguishing a defined value from
absent-or-`undefined`. -/
def getProp (m : InputData) (k : String) : Option JSVal :=
  match m.lookup k with
  | some v => if v = JSVal.undef then none else some v
  | none => none

/-- The alias-resolution loop of `setInputs`: `normalizedData` starts as
a copy of the input data, then for each `(old, new)` mapping entry whose
old key is present (not `undefined`/`null`) in the original input data,
the old key's value is assigned to the new key. -/
def applyAliases (input : InputData) : InputData :=
  fieldNameMapping.foldl
    (fun nd p =>
      match input.lookup p.1 with
      | some v => if v = JSVal.undef || v = JSVal.null then nd else setProp p.2 v nd
      | none => nd)
    input

/-- One conditional unit-rescaling step of `setInputs`: if the key's
value is truthy and numerically exceeds the bound, it is replaced by the
converted value. -/
def convertIf (key : String) (bound : ℚ) (f : JSVal → JSVal) (nd : InputData) : InputData :=
  match nd.lookup key with
  | some v => if v.truthy && JSNum.gtQ v.toNumber bound then setProp key (f v) nd else nd
  | none => nd

/-- The percentage / multiplier heuristics of `setInputs`, in source
order: `proposed_roi`, `processing_fee`, `conversion_charges` divided by
100 when above 1; `rent` and `other_expenses` turned into
`1 + value/100` when above 10; `growth_rate` divided by 100 when above
10. -/
def applyConversions (nd : InputData) : InputData :=
  convertIf "other_expenses" 10
    (fun v => jsAddV (JSVal.num (JSNum.fin 1)) (jsDivV v (JSVal.num (JSNum.fin 100))))
    (convertIf "growth_rate" 10 (fun v => jsDivV v (JSVal.num (JSNum.fin 100)))
      (convertIf "rent" 10
        (fun v => jsAddV (JSVal.num (JSNum.fin 1)) (jsDivV v (JSVal.num (JSNum.fin 100))))
        (convertIf "conversion_charges" 1 (fun v => jsDivV v (JSVal.num (JSNum.fin 100)))
          (convertIf "processing_fee" 1 (fun v => jsDivV v (JSVal.num (JSNum.fin 100)))
            (convertIf "proposed_roi" 1 (fun v => jsDivV v (JSVal.num (JSNum.fin 100)))
              nd)))))

/-- The generic input-catalogue mapping loop of `setInputs`: each
declared input takes the normalized value when defined, else its
default; values that end up `undefined` or `null` are not written. -/
def applyCatalog (wb : Workbook) (nd : InputData) (st : Store) : Store :=
  wb.inputs.foldl
    (fun st p =>
      let value :=
        match getProp nd p.1 with
        | some v => v
        | none =>
          match p.2.default with
          | some d => d
          | none => JSVal.undef
      if value = JSVal.undef || value = JSVal.null then st
      else setCellValue p.2.sheet p.2.cell value st)
    st

/-- The compatibility-override block of `setInputs`: `electricity` to
`I30`, `rent` to `I29`, the unconditional base monthly rent to `I28`
(`normalizedData.monthly_rent || 7500`), `marketing_expenses` to `I31`,
and `other_expenses` to `I35`, all on sheet `Assumptions.1`, in that
order. -/
def applyOverrides (nd : InputData) (st : Store) : Store :=
  let st1 :=
    match getProp nd "electricity" with
    | some v => setCellValue "Assumptions.1" "I30" v st
    | none => st
  let st2 :=
    match getProp nd "rent" with
    | some v => setCellValue "Assumptions.1" "I29" v st1
    | none => st1
  let mv :=
    match nd.lookup "monthly_rent" with
    | some v => v
    | none => JSVal.undef
  let st3 :=
    setCellValue "Assumptions.1" "I28"
      (if mv.truthy then mv else JSVal.num (JSNum.fin 7500)) st2
  let st4 :=
    match getProp nd "marketing_expenses" with
    | some v => setCellValue "Assumptions.1" "I31" v st3
    | none => st3
  match getProp nd "other_expenses" with
  | some v => setCellValue "Assumptions.1" "I35" v st4
  | none => st4

/-- The static-value loading loop of `setInputs`: every non-`null`
static value of every sheet is written into the cell store. -/
def applyStatics (wb : Workbook) (st : Store) : Store :=
  wb.sheets.foldl
    (fun st p =>
      p.2.static_values.foldl
        (fun st sv =>
          if sv.value = JSVal.null || sv.value = JSVal.undef then st
          else setCellValue p.1 sv.cell sv.value st)
        st)
    st

/-- The final hard-pinned writes of `setInputs`: `Assumptions.1!F84 =
12` and `Assumptions.1!F72` … `F76 = 0`, performed after static-value
loading. -/
def applyFinalFixes (st : Store) : Store :=
  setCellValue "Assumptions.1" "F76" (JSVal.num (JSNum.fin 0))
    (setCellValue "Assumptions.1" "F75" (JSVal.num (JSNum.fin 0))
      (setCellValue "Assumptions.1" "F74" (JSVal.num (JSNum.fin 0))
        (setCellValue "Assumptions.1" "F73" (JSVal.num (JSNum.fin 0))
          (setCellValue "Assumptions.1" "F72" (JSVal.num (JSNum.fin 0))
            (setCellValue "Assumptions.1" "F84" (JSVal.num (JSNum.fin 12)) st)))))

/-- `setInputs`, phase by phase in source order, starting from the
engine's fresh (empty) cell store.  The `formData.excelData` unwrapping
of the source is outside the model: the caller's input mapping is taken
directly. -/
def setInputs (wb : Workbook) (input : InputData) : Store :=
  let nd := applyConversions (applyAliases input)
  applyFinalFixes (applyStatics wb (applyOverrides nd (applyCatalog wb nd [])))

/-- `evaluateFormula`: the traversal-guard check, the three reference
passes, the function-name rewrites, and the guarded `eval`; a caught
evaluation error yields `0`.  Returns the result together with the
updated guard set. -/
def evaluateFormula (st : Store) (proc : List String) (formula sheetName cellAddress : String) :
    JSVal × List String :=
  let cellKey := sheetName ++ "!" ++ cellAddress
  if cellKey ∈ proc then (JSVal.num (JSNum.fin 0), proc)
  else
    let proc1 := cellKey :: proc
    match evalJS (fnReplace (rewriteRefs st sheetName formula.data)) with
    | some v => (v, proc1.erase cellKey)
    | none => (JSVal.num (JSNum.fin 0), proc1.erase cellKey)

/-- Engine evaluation state: the cell store together with the
traversal-guard set `this.processing`. -/
abbrev EngineState := Store × List String

/-- One iteration of the `calculateSheet` loop: evaluate the formula
and store its result under the current sheet. -/
def calcStep (sheetName : String) (s : EngineState) (fd : FormulaDef) : EngineState :=
  let r := evaluateFormula s.1 s.2 fd.formula sheetName fd.cell
  (setCellValue sheetName fd.cell r.1 s.1, r.2)

/-- `calculateSheet`: skip unknown sheets; otherwise evaluate each
declared formula in order and store its result. -/
def calculateSheet (wb : Workbook) (sheetName : String) (s : EngineState) : EngineState :=
  match wb.sheets.lookup sheetName with
  | none => s
  | some sd => sd.formulas.foldl (calcStep sheetName) s

/-- The sheet loop of `calculateAll` over an explicit order list. -/
def calculateAllOrder (wb : Workbook) (order : List String) (s : EngineState) : EngineState :=
  order.foldl (fun s name => calculateSheet wb name s) s

/-- The hard-coded `sheetOrder` of `calculateAll`. -/
def sheetOrder : List String :=
  ["Assumptions.1", "Depsch", "wc", "FinalWorkings", "plbs", "RATIO", "MPBF", "Nayak", "Coverpage"]

/-- `calculateAll`: process the sheets in the fixed dependency order. -/
def calculateAll (wb : Workbook) (s : EngineState) : EngineState :=
  calculateAllOrder wb sheetOrder s

/-- The calculation part of `execute`: `setInputs` followed by
`calculateAll` on a fresh engine (document loading and response
formatting aside). -/
def executeCalc (wb : Workbook) (input : InputData) : EngineState :=
  calculateAll wb (setInputs wb input, [])

/-- The `getVal` helper of `formatWCSheetData`: a `wc`-sheet read that
keeps numbers that are not `NaN` and maps everything else to `0`. -/
def getValWC (st : Store) (cell : String) : JSNum :=
  match getCellValue "wc" cell st with
  | JSVal.num x => if x.isNaNb then JSNum.fin 0 else x
  | _ => JSNum.fin 0

/-! ### Helper lemmas: decimal numerals and character classes -/

theorem takeWhile_all_of (p : Char → Bool) :
    ∀ l : List Char, (∀ c ∈ l, p c = true) → l.takeWhile p = l := by
  intro l
  induction l with
  | nil => intro _; rfl
  | cons c cs ih =>
    intro h
    have hc : p c = true := h c (List.mem_cons_self c cs)
    simp [List.takeWhile, hc, ih fun x hx => h x (List.mem_cons_of_mem c hx)]

theorem dropWhile_all_of (p : Char → Bool) :
    ∀ l : List Char, (∀ c ∈ l, p c = true) → l.dropWhile p = [] := by
  intro l
  induction l with
  | nil => intro _; rfl
  | cons c cs ih =>
    intro h
    have hc : p c = true := h c (List.mem_cons_self c cs)
    simp [List.dropWhile, hc, ih fun x hx => h x (List.mem_cons_of_mem c hx)]

theorem mem_of_mem_takeWhile (p : Char → Bool) :
    ∀ l : List Char, ∀ c ∈ l.takeWhile p, c ∈ l := by
  intro l
  induction l with
  | nil => intro c hc; simp [List.takeWhile] at hc
  | cons a as ih =>
    intro c hc
    by_cases hp : p a = true
    · simp [List.takeWhile, hp] at hc
      rcases hc with h | h
      · simp [h]
      · exact List.mem_cons_of_mem a (ih c h)
    · simp [List.takeWhile, hp] at hc

theorem mem_of_mem_dropWhile (p : Char → Bool) :
    ∀ l : List Char, ∀ c ∈ l.dropWhile p, c ∈ l := by
  intro l
  induction l with
  | nil => intro c hc; simp [List.dropWhile] at hc
  | cons a as ih =>
    intro c hc
    by_cases hp : p a = true
    · simp [List.dropWhile, hp] at hc
      exact List.mem_cons_of_mem a (ih c hc)
    · simp [List.dropWhile, hp] at hc
      rcases hc with h | h
      · simp [h]
      · exact List.mem_cons_of_mem a h

/-- The decimal digit characters. -/
def digitChars : List Char := "0123456789".data

theorem digitChar_mem (n : ℕ) (h : n < 10) : digitChar n ∈ digitChars := by
  interval_cases n <;> decide

theorem digitVal_digitChar (n : ℕ) (h : n < 10) : digitVal (digitChar n) = n := by
  interval_cases n <;> decide

theorem natReprAux_mem (fuel : ℕ) :
    ∀ n, ∀ c ∈ natReprAux fuel n, c ∈ digitChars := by
  induction fuel with
  | zero => intro n c hc; simp [natReprAux] at hc
  | succ fuel ih =>
    intro n c hc
    by_cases h10 : n < 10
    · simp [natReprAux, h10] at hc
      rw [hc]; exact digitChar_mem n h10
    · simp [natReprAux, h10] at hc
      rcases hc with h | h
      · exact ih (n / 10) c h
      · rw [h]; exact digitChar_mem (n % 10) (Nat.mod_lt n (by norm_num))

theorem natReprL_mem (n : ℕ) : ∀ c ∈ natReprL n, c ∈ digitChars :=
  natReprAux_mem (n + 1) n

theorem natReprAux_ne_nil (fuel n : ℕ) (h : n < fuel) : natReprAux fuel n ≠ [] := by
  cases fuel with
  | zero => omega
  | succ fuel =>
    by_cases h10 : n < 10 <;> simp [natReprAux, h10]

theorem natReprL_ne_nil (n : ℕ) : natReprL n ≠ [] :=
  natReprAux_ne_nil (n + 1) n (Nat.lt_succ_self n)

theorem natReprAux_foldl (fuel : ℕ) :
    ∀ n, n < fuel → ∀ acc : ℕ,
      List.foldl (fun a c => 10 * a + digitVal c) acc (natReprAux fuel n)
        = acc * 10 ^ (natReprAux fuel n).length + n := by
  induction fuel with
  | zero => intro n h; omega
  | succ fuel ih =>
    intro n h acc
    by_cases h10 : n < 10
    · simp [natReprAux, h10, digitVal_digitChar n h10]; ring
    · have hpos : 10 ≤ n := Nat.le_of_not_lt h10
      have hdiv : n / 10 < fuel := by
        have := Nat.div_lt_self (by omega : 0 < n) (by norm_num : 1 < 10)
        omega
      simp only [natReprAux, h10, if_false, List.foldl_append, List.length_append,
        List.foldl_cons, List.foldl_nil, List.length_cons, List.length_nil]
      rw [ih (n / 10) hdiv acc]
      rw [digitVal_digitChar (n % 10) (Nat.mod_lt n (by norm_num))]
      have hmod : 10 * (n / 10) + n % 10 = n := Nat.div_add_mod n 10
      rw [pow_succ]
      ring_nf
      omega

theorem digitsToNat_natReprL (n : ℕ) : digitsToNat (natReprL n) = n := by
  have := natReprAux_foldl (n + 1) n (Nat.lt_succ_self n) 0
  simpa [digitsToNat, natReprL] using this

theorem digit_isDigit : ∀ c ∈ digitChars, c.isDigit = true := by decide

theorem intReprL_mem (n : ℤ) : ∀ c ∈ intReprL n, c ∈ '-' :: digitChars := by
  intro c hc
  by_cases hn : n < 0
  · simp [intReprL, hn] at hc
    rcases hc with h | h
    · simp [h]
    · exact List.mem_cons_of_mem _ (natReprL_mem n.natAbs c h)
  · simp [intReprL, hn] at hc
    exact List.mem_cons_of_mem _ (natReprL_mem n.natAbs c hc)

/-! ### Helper lemmas: the modelled `eval` on plain integer numerals -/

theorem skipWs_eq_self (l : List Char) (h : ∀ c ∈ l, (c = ' ' || c = '\t') = false) :
    skipWs l = l := by
  cases l with
  | nil => rfl
  | cons c cs =>
    have hc := h c (List.mem_cons_self c cs)
    simp only [skipWs, List.dropWhile]
    simp [hc]

theorem digit_not_ws : ∀ c ∈ digitChars, ((c = ' ' || c = '\t') = false) := by decide

theorem parseAtom_digits (fuel : ℕ) (l : List Char) (h1 : l ≠ [])
    (h2 : ∀ c ∈ l, c ∈ digitChars) :
    parseAtom (fuel + 1) l = some (JSVal.num (JSNum.fin (digitsToNat l)), []) := by
  match l, h1 with
  | c :: cs, _ =>
    have hc : c ∈ digitChars := h2 c (List.mem_cons_self c cs)
    have hallcs : ∀ x ∈ cs, Char.isDigit x = true := fun x hx =>
      digit_isDigit x (h2 x (List.mem_cons_of_mem c hx))
    have htake := takeWhile_all_of Char.isDigit cs hallcs
    have hdrop := dropWhile_all_of Char.isDigit cs hallcs
    fin_cases hc <;> simp [parseAtom, htake, hdrop]

theorem parseUnary_digits (fuel : ℕ) (l : List Char) (h1 : l ≠ [])
    (h2 : ∀ c ∈ l, c ∈ digitChars) :
    parseUnary (fuel + 2) l = some (JSVal.num (JSNum.fin (digitsToNat l)), []) := by
  match l, h1 with
  | c :: cs, _ =>
    have hc : c ∈ digitChars := h2 c (List.mem_cons_self c cs)
    have hatom := parseAtom_digits fuel (c :: cs) (by simp) h2
    fin_cases hc <;> simp_all [parseUnary, skipWs, List.dropWhile]

theorem parseUnary_neg_digits (fuel : ℕ) (l : List Char) (h1 : l ≠ [])
    (h2 : ∀ c ∈ l, c ∈ digitChars) :
    parseUnary (fuel + 3) ('-' :: l)
      = some (JSVal.num (JSNum.fin (-(digitsToNat l : ℚ))), []) := by
  have hu := parseUnary_digits fuel l h1 h2
  have hws : skipWs ('-' :: l) = '-' :: l :=
    skipWs_eq_self _ (by
      intro c hc
      rcases List.mem_cons.mp hc with h | h
      · rw [h]; decide
      · exact digit_not_ws c (h2 c h))
  conv_lhs => rw [parseUnary]
  rw [hws]
  simp only [hu, jsNegV, JSVal.toNumber, JSNum.neg]

theorem parseMulDivRest_nil (fuel : ℕ) (v : JSVal) :
    parseMulDivRest (fuel + 1) v [] = some (v, []) := by
  conv_lhs => rw [parseMulDivRest]
  simp [skipWs]

theorem parseAddSubRest_nil (fuel : ℕ) (v : JSVal) :
    parseAddSubRest (fuel + 1) v [] = some (v, []) := by
  conv_lhs => rw [parseAddSubRest]
  simp [skipWs]

theorem parseMulDiv_digits (fuel : ℕ) (l : List Char) (h1 : l ≠ [])
    (h2 : ∀ c ∈ l, c ∈ digitChars) :
    parseMulDiv (fuel + 3) l = some (JSVal.num (JSNum.fin (digitsToNat l)), []) := by
  have hu := parseUnary_digits fuel l h1 h2
  conv_lhs => rw [parseMulDiv]
  rw [hu]
  exact parseMulDivRest_nil (fuel + 1) _

theorem parseMulDiv_neg_digits (fuel : ℕ) (l : List Char) (h1 : l ≠ [])
    (h2 : ∀ c ∈ l, c ∈ digitChars) :
    parseMulDiv (fuel + 4) ('-' :: l)
      = some (JSVal.num (JSNum.fin (-(digitsToNat l : ℚ))), []) := by
  have hu := parseUnary_neg_digits fuel l h1 h2
  conv_lhs => rw [parseMulDiv]
  rw [hu]
  exact parseMulDivRest_nil (fuel + 2) _

theorem parseAddSub_digits (fuel : ℕ) (l : List Char) (h1 : l ≠ [])
    (h2 : ∀ c ∈ l, c ∈ digitChars) :
    parseAddSub (fuel + 4) l = some (JSVal.num (JSNum.fin (digitsToNat l)), []) := by
  have hm := parseMulDiv_digits fuel l h1 h2
  conv_lhs => rw [parseAddSub]
  rw [hm]
  exact parseAddSubRest_nil (fuel + 2) _

theorem parseAddSub_neg_digits (fuel : ℕ) (l : List Char) (h1 : l ≠ [])
    (h2 : ∀ c ∈ l, c ∈ digitChars) :
    parseAddSub (fuel + 5) ('-' :: l)
      = some (JSVal.num (JSNum.fin (-(digitsToNat l : ℚ))), []) := by
  have hm := parseMulDiv_neg_digits fuel l h1 h2
  conv_lhs => rw [parseAddSub]
  rw [hm]
  exact parseAddSubRest_nil (fuel + 3) _

theorem evalJS_natReprL (n : ℕ) :
    evalJS (natReprL n) = some (JSVal.num (JSNum.fin (n : ℚ))) := by
  have h1 := natReprL_ne_nil n
  have h2 := natReprL_mem n
  have hws : skipWs (natReprL n) = natReprL n :=
    skipWs_eq_self _ (fun c hc => digit_not_ws c (h2 c hc))
  have hp := parseAddSub_digits (5 * (natReprL n).length + 16) (natReprL n) h1 h2
  rw [evalJS, hws]
  have hne : (natReprL n).isEmpty = false := by
    cases hrep : natReprL n with
    | nil => exact absurd hrep h1
    | cons c cs => rfl
  rw [hne]
  rw [show 5 * (natReprL n).length + 20 = (5 * (natReprL n).length + 16) + 4 from by ring, hp]
  simp [skipWs, digitsToNat_natReprL]

theorem evalJS_intReprL (n : ℤ) :
    evalJS (intReprL n) = some (JSVal.num (JSNum.fin (n : ℚ))) := by
  by_cases hn : n < 0
  · have h1 := natReprL_ne_nil n.natAbs
    have h2 := natReprL_mem n.natAbs
    have hws : skipWs ('-' :: natReprL n.natAbs) = '-' :: natReprL n.natAbs :=
      skipWs_eq_self _ (by
        intro c hc
        rcases List.mem_cons.mp hc with h | h
        · rw [h]; decide
        · exact digit_not_ws c (h2 c h))
    have hp := parseAddSub_neg_digits
      (5 * ('-' :: natReprL n.natAbs).length + 15) (natReprL n.natAbs) h1 h2
    rw [intReprL, if_pos hn, evalJS, hws]
    have hne : ('-' :: natReprL n.natAbs).isEmpty = false := rfl
    rw [hne]
    rw [show 5 * ('-' :: natReprL n.natAbs).length + 20
          = (5 * ('-' :: natReprL n.natAbs).length + 15) + 5 from by ring, hp]
    have hcast : (-(digitsToNat (natReprL n.natAbs) : ℚ)) = (n : ℚ) := by
      rw [digitsToNat_natReprL]
      have hq : ((n.natAbs : ℕ) : ℚ) = -(n : ℚ) := by
        push_cast [Int.cast_natAbs]
        exact abs_of_neg (by exact_mod_cast hn)
      rw [hq]; ring
    simp [skipWs, hcast]
  · have : evalJS (natReprL n.natAbs) = some (JSVal.num (JSNum.fin (n.natAbs : ℚ))) :=
      evalJS_natReprL n.natAbs
    rw [intReprL, if_neg hn, this]
    have hcast : ((n.natAbs : ℕ) : ℚ) = (n : ℚ) := by
      push_cast [Int.cast_natAbs]
      exact abs_of_nonneg (by exact_mod_cast le_of_not_lt hn)
    rw [hcast]

/-! ### Helper lemmas: rewriting passes leave reference-free text unchanged -/

theorem renderCellValue_int (n : ℤ) :
    renderCellValue (JSVal.num (JSNum.fin (n : ℚ))) = intReprL n := by
  simp [renderCellValue, numReprL, ratReprL, Rat.den_intCast, Rat.num_intCast]

theorem rangeMatchAt_none_of_no_colon (l : List Char) (h : ':' ∉ l) :
    rangeMatchAt l = none := by
  simp only [rangeMatchAt]
  split
  · rfl
  · split
    · rfl
    · split
      · rename_i heq
        exfalso
        apply h
        have : ':' ∈ (l.dropWhile Char.isUpper).dropWhile Char.isDigit := by
          rw [heq]; exact List.mem_cons_self _ _
        exact mem_of_mem_dropWhile _ _ _
          (mem_of_mem_dropWhile _ _ _ this)
      · rfl

theorem rangeReplaceAux_id (st : Store) (sheetName : String) :
    ∀ fuel l, ':' ∉ l → rangeReplaceAux st sheetName fuel l = l := by
  intro fuel
  induction fuel with
  | zero => intro l _; cases l <;> rfl
  | succ fuel ih =>
    intro l h
    cases l with
    | nil => rfl
    | cons c cs =>
      rw [rangeReplaceAux, rangeMatchAt_none_of_no_colon _ h]
      rw [ih cs fun hc => h (List.mem_cons_of_mem c hc)]

theorem rangeReplace_id (st : Store) (sheetName : String) (l : List Char) (h : ':' ∉ l) :
    rangeReplace st sheetName l = l :=
  rangeReplaceAux_id st sheetName (l.length + 1) l h

theorem qualMatchAt_none_of_no_bang (st : Store) (l : List Char) (h : '!' ∉ l) :
    qualMatchAt st l = none := by
  simp only [qualMatchAt]
  split
  · rfl
  · split
    · rename_i heq
      exfalso
      apply h
      have : '!' ∈ l.dropWhile isQualChar := by
        rw [heq]; exact List.mem_cons_self _ _
      exact mem_of_mem_dropWhile _ _ _ this
    · rfl

theorem qualReplaceAux_id (st : Store) :
    ∀ fuel l, '!' ∉ l → qualReplaceAux st fuel l = l := by
  intro fuel
  induction fuel with
  | zero => intro l _; cases l <;> rfl
  | succ fuel ih =>
    intro l h
    cases l with
    | nil => rfl
    | cons c cs =>
      rw [qualReplaceAux, qualMatchAt_none_of_no_bang st _ h]
      rw [ih cs fun hc => h (List.mem_cons_of_mem c hc)]

theorem qualReplace_id (st : Store) (l : List Char) (h : '!' ∉ l) :
    qualReplace st l = l :=
  qualReplaceAux_id st (l.length + 1) l h

theorem bareMatchAt_none_of_no_upper (st : Store) (sheetName : String) (prev : Option Char)
    (l : List Char) (h : ∀ c ∈ l, c.isUpper = false) :
    bareMatchAt st sheetName prev l = none := by
  simp only [bareMatchAt]
  split
  · have hts : l.takeWhile Char.isUpper = [] := by
      cases l with
      | nil => rfl
      | cons c cs => simp [List.takeWhile, h c (List.mem_cons_self c cs)]
    simp [hts]
  · rfl

theorem bareReplaceAux_id (st : Store) (sheetName : String) :
    ∀ fuel prev l, (∀ c ∈ l, c.isUpper = false) →
      bareReplaceAux st sheetName fuel prev l = l := by
  intro fuel
  induction fuel with
  | zero => intro prev l _; cases l <;> rfl
  | succ fuel ih =>
    intro prev l h
    cases l with
    | nil => rfl
    | cons c cs =>
      rw [bareReplaceAux, bareMatchAt_none_of_no_upper st sheetName prev _ h]
      rw [ih (some c) cs fun x hx => h x (List.mem_cons_of_mem c hx)]

theorem bareReplace_id (st : Store) (sheetName : String) (l : List Char)
    (h : ∀ c ∈ l, c.isUpper = false) :
    bareReplace st sheetName l = l :=
  bareReplaceAux_id st sheetName (l.length + 1) none l h

theorem replaceSubAux_id (p : Char) (ps repl : List Char) :
    ∀ fuel l, p ∉ l → replaceSubAux (p :: ps) repl fuel l = l := by
  intro fuel
  induction fuel with
  | zero => intro l _; cases l <;> rfl
  | succ fuel ih =>
    intro l h
    cases l with
    | nil => rfl
    | cons c cs =>
      have hpc : (p == c) = false := by
        simp only [beq_eq_false_iff_ne, ne_eq]
        intro hp; exact h (hp ▸ List.mem_cons_self c cs)
      rw [replaceSubAux]
      simp [List.isPrefixOf, hpc, ih cs fun hc => h (List.mem_cons_of_mem c hc)]

theorem replaceSubL_id (p : Char) (ps repl l : List Char) (h : p ∉ l) :
    replaceSubL (p :: ps) repl l = l :=
  replaceSubAux_id p ps repl (l.length + 1) l h

/-- The function-name rewrites do not touch text made of a sign and
digits. -/
theorem fnReplace_id_of_sign_digits (l : List Char) (h : ∀ c ∈ l, c ∈ '-' :: digitChars) :
    fnReplace l = l := by
  have hno : ∀ p : Char, p ∉ '-' :: digitChars → p ∉ l := fun p hp hmem => hp (h p hmem)
  simp only [fnReplace, fnNames, List.foldl_cons, List.foldl_nil, List.cons_append,
    List.nil_append]
  rw [replaceSubL_id 'S' _ _ l (hno 'S' (by decide))]
  rw [replaceSubL_id 'A' _ _ l (hno 'A' (by decide))]
  rw [replaceSubL_id 'M' _ _ l (hno 'M' (by decide))]
  rw [replaceSubL_id 'M' _ _ l (hno 'M' (by decide))]
  rw [replaceSubL_id 'I' _ _ l (hno 'I' (by decide))]
  rw [replaceSubL_id 'R' _ _ l (hno 'R' (by decide))]
  rw [replaceSubL_id 'A' _ _ l (hno 'A' (by decide))]
  rw [replaceSubL_id 'C' _ _ l (hno 'C' (by decide))]
  rw [replaceSubL_id 'C' _ _ l (hno 'C' (by decide))]

/-! ### Helper lemmas: characters of serialized range values -/

/-- Characters that can occur in the JSON serialization of an expanded
range. -/
def jsonChars : List Char := "0123456789-[](),/nul".data

theorem ratReprL_mem (q : ℚ) : ∀ c ∈ ratReprL q, c ∈ jsonChars := by
  intro c hc
  have hsub : ∀ x ∈ '-' :: digitChars, x ∈ jsonChars := by decide
  by_cases hden : q.den = 1
  · rw [ratReprL, if_pos hden] at hc
    exact hsub c (intReprL_mem q.num c hc)
  · rw [ratReprL, if_neg hden] at hc
    rcases List.mem_cons.mp hc with h | h
    · rw [h]; decide
    · rcases List.mem_append.mp h with h | h
      · rcases List.mem_append.mp h with h | h
        · exact hsub c (intReprL_mem q.num c h)
        · rcases List.mem_cons.mp h with h | h
          · rw [h]; decide
          · exact hsub c (List.mem_cons_of_mem _ (natReprL_mem q.den c h))
      · rw [List.mem_singleton.mp h]; decide

theorem jsonNumL_mem (x : JSNum) : ∀ c ∈ jsonNumL x, c ∈ jsonChars := by
  intro c hc
  cases x with
  | fin q => exact ratReprL_mem q c hc
  | nan =>
    have hc2 : c ∈ ['n', 'u', 'l', 'l'] := hc
    fin_cases hc2 <;> decide
  | inf =>
    have hc2 : c ∈ ['n', 'u', 'l', 'l'] := hc
    fin_cases hc2 <;> decide
  | ninf =>
    have hc2 : c ∈ ['n', 'u', 'l', 'l'] := hc
    fin_cases hc2 <;> decide

theorem jsonArrL_mem (xs : List JSNum) : ∀ c ∈ jsonArrL xs, c ∈ jsonChars := by
  intro c hc
  cases xs with
  | nil =>
    have hc2 : c ∈ ['[', ']'] := hc
    fin_cases hc2 <;> decide
  | cons x rest =>
    simp only [jsonArrL] at hc
    rcases List.mem_cons.mp hc with h | h
    · rw [h]; decide
    · rcases List.mem_append.mp h with h2 | h2
      · have haux : ∀ (ys : List JSNum) (acc : List Char),
            (∀ a ∈ acc, a ∈ jsonChars) →
            ∀ a ∈ ys.foldl (fun acc y => acc ++ ',' :: jsonNumL y) acc, a ∈ jsonChars := by
          intro ys
          induction ys with
          | nil => intro acc hacc a ha; exact hacc a ha
          | cons y ys ih =>
            intro acc hacc a ha
            refine ih _ ?_ a ha
            intro b hb
            rcases List.mem_append.mp hb with hb1 | hb1
            · exact hacc b hb1
            · rcases List.mem_cons.mp hb1 with hb2 | hb2
              · rw [hb2]; decide
              · exact jsonNumL_mem y b hb2
        exact haux rest (jsonNumL x) (jsonNumL_mem x) c h2
      · rw [List.mem_singleton.mp h2]; decide

theorem jsonChars_no_bang : ∀ c ∈ jsonChars, ¬c = '!' := by decide

theorem jsonChars_no_upper : ∀ c ∈ jsonChars, c.isUpper = false := by decide

/-! ### Helper lemmas: range expansion -/

theorem takeWhile_append_of_all (p : Char → Bool) (ys : List Char) :
    ∀ xs, (∀ c ∈ xs, p c = true) → (xs ++ ys).takeWhile p = xs ++ ys.takeWhile p := by
  intro xs
  induction xs with
  | nil => intro _; rfl
  | cons c cs ih =>
    intro h
    have hc := h c (List.mem_cons_self c cs)
    simp [List.takeWhile, hc, ih fun x hx => h x (List.mem_cons_of_mem c hx)]

theorem dropWhile_append_of_all (p : Char → Bool) (ys : List Char) :
    ∀ xs, (∀ c ∈ xs, p c = true) → (xs ++ ys).dropWhile p = ys.dropWhile p := by
  intro xs
  induction xs with
  | nil => intro _; rfl
  | cons c cs ih =>
    intro h
    have hc := h c (List.mem_cons_self c cs)
    simp [List.dropWhile, hc, ih fun x hx => h x (List.mem_cons_of_mem c hx)]

theorem takeWhile_nil_of_all_false (p : Char → Bool) (l : List Char)
    (h : ∀ c ∈ l, p c = false) :
    l.takeWhile p = [] := by
  cases l with
  | nil => rfl
  | cons c cs => simp [List.takeWhile, h c (List.mem_cons_self c cs)]

theorem dropWhile_eq_self_of_all_false (p : Char → Bool) (l : List Char)
    (h : ∀ c ∈ l, p c = false) :
    l.dropWhile p = l := by
  cases l with
  | nil => rfl
  | cons c cs => simp [List.dropWhile, h c (List.mem_cons_self c cs)]

theorem digit_not_upper : ∀ c ∈ digitChars, c.isUpper = false := by decide

theorem findCellMatch_append (col : List Char) (n : ℕ) (hne : col ≠ [])
    (hcol : ∀ c ∈ col, c.isUpper = true) :
    findCellMatch (col ++ natReprL n) = some (col, natReprL n) := by
  match col, hne with
  | c0 :: col', _ =>
    have hdig : ∀ c ∈ natReprL n, c.isUpper = false :=
      fun c hc => digit_not_upper c (natReprL_mem n c hc)
    have htake : ((c0 :: col') ++ natReprL n).takeWhile Char.isUpper = c0 :: col' := by
      rw [takeWhile_append_of_all _ _ _ hcol, takeWhile_nil_of_all_false _ _ hdig,
        List.append_nil]
    have hdrop : ((c0 :: col') ++ natReprL n).dropWhile Char.isUpper = natReprL n := by
      rw [dropWhile_append_of_all _ _ _ hcol, dropWhile_eq_self_of_all_false _ _ hdig]
    have hdtake : (natReprL n).takeWhile Char.isDigit = natReprL n :=
      takeWhile_all_of _ _ fun c hc => digit_isDigit c (natReprL_mem n c hc)
    rw [List.cons_append, findCellMatch]
    rw [← List.cons_append, htake, hdrop, hdtake]
    have h1 : (c0 :: col').isEmpty = false := rfl
    have h2 : (natReprL n).isEmpty = false := by
      cases hrep : natReprL n with
      | nil => exact absurd hrep (natReprL_ne_nil n)
      | cons a as => rfl
    simp [h1, h2]

theorem foldl_push_filterMap (f : ℕ → JSVal) :
    ∀ (rows : List ℕ) (acc : List JSNum),
      rows.foldl
        (fun values row =>
          match f row with
          | JSVal.num x => if x.isNaNb then values else values ++ [x]
          | _ => values)
        acc
      = acc ++ rows.filterMap (fun row =>
          match f row with
          | JSVal.num x => if x.isNaNb then none else some x
          | _ => none) := by
  intro rows
  induction rows with
  | nil => intro acc; simp
  | cons r rs ih =>
    intro acc
    simp only [List.foldl_cons, List.filterMap_cons]
    cases hf : f r with
    | num x =>
      cases hx : x.isNaNb with
      | true => simp [hf, hx, ih]
      | false => simp [hf, hx, ih]
    | str s => simp [hf, ih]
    | arr xs => simp [hf, ih]
    | null => simp [hf, ih]
    | undef => simp [hf, ih]

/-! ### Claim C1: circular references -/

/-- Two-formula workbook with the cycle `A1 = B1+1`, `B1 = A1+1`. -/
def wbCyc : Workbook :=
  { sheets := [("S", { static_values := [], formulas := [⟨"A1", "B1+1"⟩, ⟨"B1", "A1+1"⟩] })],
    inputs := [] }

/-- C1, counterexample.  The claim says both cells of the two-cell cycle
`A1 = B1+1`, `B1 = A1+1` resolve to `0`.  In fact evaluation substitutes
the current stored value of each reference (absent reads as `0`) and
never re-enters a formula, so the cells resolve to `1` and `2`. -/
theorem C1_counterexample :
    getCellValue "S" "A1" (calculateSheet wbCyc "S" (setInputs wbCyc [], [])).1
        = JSVal.num (JSNum.fin 1)
      ∧ getCellValue "S" "B1" (calculateSheet wbCyc "S" (setInputs wbCyc [], [])).1
        = JSVal.num (JSNum.fin 2)
      ∧ JSVal.num (JSNum.fin 1) ≠ JSVal.num (JSNum.fin 0) := by
  refine ⟨?_, ?_, by decide⟩
  · with_unfolding_all decide
  · with_unfolding_all decide

/-- C1, amended.  A formula whose text references its own cell does not
raise, stack-overflow, or hang: every evaluation is a total function that
restores the traversal guard on exit, and a self-reference is substituted
with the currently stored value of the cell (`0` when absent) rather
than re-evaluated.  A formula at `A1` whose text is exactly `A1` with
nothing stored resolves to `0`; the two-cell cycle `A1 = B1+1`,
`B1 = A1+1` resolves to `A1 = 1`, `B1 = 2` (not `0` and `0`). -/
theorem C1_amended :
    (∀ (st : Store) (formula sheetName cellAddress : String),
        (evaluateFormula st [] formula sheetName cellAddress).2 = [])
      ∧ evaluateFormula [] [] "A1" "S" "A1" = (JSVal.num (JSNum.fin 0), [])
      ∧ getCellValue "S" "A1" (calculateSheet wbCyc "S" (setInputs wbCyc [], [])).1
          = JSVal.num (JSNum.fin 1)
      ∧ getCellValue "S" "B1" (calculateSheet wbCyc "S" (setInputs wbCyc [], [])).1
          = JSVal.num (JSNum.fin 2) := by
  refine ⟨?_, ?_, ?_, ?_⟩
  · intro st formula sheetName cellAddress
    have hnot : (sheetName ++ "!" ++ cellAddress) ∉ ([] : List String) :=
      List.not_mem_nil _
    simp only [evaluateFormula, if_neg hnot]
    cases h : evalJS (fnReplace (rewriteRefs st sheetName formula.data)) with
    | some v => simp [h, List.erase_cons_head]
    | none => simp [h, List.erase_cons_head]
  · with_unfolding_all decide
  · with_unfolding_all decide
  · with_unfolding_all decide

/-! ### Claim C2: legacy alias keys vs canonical keys -/

/-- Workbook whose only declared input is the canonical key
`applicant_name`, mapped to cell `S!C5`; `company_name` is its legacy
alias in `fieldNameMapping`. -/
def wbC2 : Workbook := { sheets := [], inputs := [("applicant_name", ⟨"S", "C5", none⟩)] }

set_option maxRecDepth 2000 in
/-- C2, counterexample.  The claim says that when both the alias
`company_name` and its canonical key `applicant_name` are supplied, the
canonical key's value wins.  In fact the alias loop copies the alias's
value over the canonical key in normalized data after the spread, so the
alias's value `"X"` (not the canonical `"Y"`) is written to `S!C5`. -/
theorem C2_counterexample :
    getCellValue "S" "C5"
        (setInputs wbC2 [("company_name", JSVal.str "X"), ("applicant_name", JSVal.str "Y")])
        = JSVal.str "X"
      ∧ JSVal.str "X" ≠ JSVal.str "Y" := by
  refine ⟨?_, by decide⟩
  with_unfolding_all decide

set_option maxRecDepth 2000 in
set_option maxHeartbeats 1000000 in
/-- C2, amended.  When both a legacy alias and its canonical key are
supplied, the alias's value overwrites the canonical key's value in the
normalized data and is the one written to the canonical input's declared
cell (alias wins); when only the legacy alias is supplied, its value is
written into the canonical key's declared cell. -/
theorem C2_amended :
    (getCellValue "S" "C5"
        (setInputs wbC2 [("company_name", JSVal.str "X"), ("applicant_name", JSVal.str "Y")])
        = JSVal.str "X")
      ∧ (∀ v : JSVal, ¬v = JSVal.null → ¬v = JSVal.undef →
          getCellValue "S" "C5" (setInputs wbC2 [("company_name", v)]) = v) := by
  constructor
  · with_unfolding_all decide
  · intro v h1 h2
    have hnd : applyConversions (applyAliases [("company_name", v)])
        = [("applicant_name", v), ("company_name", v)] := by
      simp [applyAliases, applyConversions, convertIf, fieldNameMapping, setProp,
        List.lookup, h1, h2]
    simp only [setInputs, hnd]
    simp [applyCatalog, applyOverrides, applyStatics, applyFinalFixes, getProp, setCellValue,
      getCellValue, wbC2, List.lookup, h1, h2]

/-- C2, witness for the amended theorem's alias-only part. -/
theorem C2_amended_witness :
    getCellValue "S" "C5" (setInputs wbC2 [("company_name", JSVal.str "Z")]) = JSVal.str "Z" :=
  C2_amended.2 (JSVal.str "Z") (by decide) (by decide)

/-! ### Claim C5: ROUND semantics -/

set_option maxRecDepth 2000 in
/-- C5, counterexample.  The claim asserts round-half-away-from-zero in
all cases, so `ROUND(-2.5, 0)` would be `-3`; the code uses JavaScript
`Math.round`, which rounds half toward positive infinity, giving `-2`. -/
theorem C5_counterexample :
    excelFunctions.ROUND [JSVal.num (JSNum.fin (-(5 : ℚ) / 2)), JSVal.num (JSNum.fin 0)]
        = some (JSVal.num (JSNum.fin (-2)))
      ∧ ¬(excelFunctions.ROUND [JSVal.num (JSNum.fin (-(5 : ℚ) / 2)), JSVal.num (JSNum.fin 0)]
            = some (JSVal.num (JSNum.fin (-3)))) := by
  constructor
  · with_unfolding_all decide
  · with_unfolding_all decide

set_option maxRecDepth 2000 in
/-- C5, amended.  For every number `n` and integer `d`, `ROUND(n, d)`
scales by `10^d`, applies `Math.round`, and unscales:
`ROUND(n, d) = ⌊n·10^d + 1/2⌋·10^(-d)`, so `d = 0` rounds to the nearest
integer, `d > 0` to `d` fractional digits, and `d < 0` to the nearest
`10^|d|` (`ROUND(1234, -2) = 1200`) — but with round-half-toward-positive-
infinity semantics (the result `r` of rounding `x` is the unique integer
with `x - 1/2 < r ≤ x + 1/2`), not half-away-from-zero: `ROUND(-2.5, 0)`
is `-2`. -/
theorem C5_amended :
    (∀ (q : ℚ) (d : ℤ),
        excelFunctions.ROUNDcore (JSNum.fin q) d
          = JSNum.fin ((⌊q * (10 : ℚ) ^ d + 1/2⌋ : ℤ) * (10 : ℚ) ^ (-d)))
      ∧ (∀ q : ℚ, q - 1/2 < ((⌊q + 1/2⌋ : ℤ) : ℚ) ∧ ((⌊q + 1/2⌋ : ℤ) : ℚ) ≤ q + 1/2)
      ∧ (∀ (n : JSNum) (d : ℤ),
          excelFunctions.ROUND [JSVal.num n, JSVal.num (JSNum.fin (d : ℚ))]
            = some (JSVal.num (excelFunctions.ROUNDcore n d)))
      ∧ excelFunctions.ROUNDcore (JSNum.fin 1234) (-2) = JSNum.fin 1200
      ∧ excelFunctions.ROUNDcore (JSNum.fin (-(5 : ℚ) / 2)) 0 = JSNum.fin (-2) := by
  refine ⟨?_, ?_, ?_, ?_, ?_⟩
  · intro q d
    rcases lt_trichotomy d 0 with hd | hd | hd
    · have hne : d ≠ 0 := ne_of_lt hd
      have hk : ((d.natAbs : ℕ) : ℤ) = -d := Int.ofNat_natAbs_of_nonpos (le_of_lt hd)
      have hpow : ((10 : ℚ) ^ d.natAbs) = (10 : ℚ) ^ (-d) := by
        rw [← zpow_natCast (10 : ℚ) d.natAbs, hk]
      have hpow2 : (10 : ℚ) ^ d = ((10 : ℚ) ^ (-d))⁻¹ := by
        rw [← zpow_neg]; ring_nf
      have hfz : ((10 : ℚ) ^ d.natAbs) ≠ 0 := by positivity
      simp only [excelFunctions.ROUNDcore, if_neg hne, if_pos hd, JSNum.div, JSNum.mul,
        JSNum.roundJ, hfz, if_neg hfz]
      rw [hpow, hpow2]
      congr 2
    · subst hd
      simp [excelFunctions.ROUNDcore, JSNum.roundJ]
    · have hne : d ≠ 0 := ne_of_gt hd
      have hnlt : ¬d < 0 := not_lt_of_gt hd
      have hk : ((d.natAbs : ℕ) : ℤ) = d := Int.natAbs_of_nonneg (le_of_lt hd)
      have hpow : ((10 : ℚ) ^ d.natAbs) = (10 : ℚ) ^ d := by
        rw [← zpow_natCast (10 : ℚ) d.natAbs, hk]
      have hfz : ((10 : ℚ) ^ d.natAbs) ≠ 0 := by positivity
      simp only [excelFunctions.ROUNDcore, if_neg hne, if_neg hnlt, JSNum.div, JSNum.mul,
        JSNum.roundJ, if_neg hfz]
      rw [hpow]
      rw [div_eq_mul_inv, zpow_neg]
  · intro q
    constructor
    · have := Int.sub_one_lt_floor (q + 1/2)
      linarith
    · have := Int.floor_le (q + 1/2)
      linarith
  · intro n d
    have hden : ((d : ℚ)).den = 1 := Rat.den_intCast d
    have hnum : ((d : ℚ)).num = d := Rat.num_intCast d
    simp [excelFunctions.ROUND, JSVal.toNumber, hden, hnum]
  · with_unfolding_all decide
  · with_unfolding_all decide

/-! ### Claim C8: cell-store value invariant -/

/-- Workbook whose `wc` sheet holds the single formula `A1 = 1/0`. -/
def wbC8 : Workbook :=
  { sheets := [("wc", { static_values := [], formulas := [⟨"A1", "1/0"⟩] })], inputs := [] }

/-- Decidable form of the claimed invariant "every stored value is a
finite number or a string". -/
def isFiniteOrString : JSVal → Bool
  | JSVal.num (JSNum.fin _) => true
  | JSVal.str _ => true
  | _ => false

set_option maxRecDepth 2000 in
/-- C8, counterexample.  Evaluating the reachable formula `1/0` stores
`Infinity` in the cell store, so the claimed invariant "every stored
value is either a finite number or a string" does not hold over all
reachable states. -/
theorem C8_counterexample :
    getCellValue "wc" "A1" (executeCalc wbC8 []).1 = JSVal.num JSNum.inf
      ∧ isFiniteOrString (getCellValue "wc" "A1" (executeCalc wbC8 []).1) = false := by
  constructor
  · with_unfolding_all decide
  · with_unfolding_all decide

set_option maxRecDepth 2000 in
/-- C8, amended.  The cell store can hold non-finite numbers: a
division-by-zero formula stores `Infinity`.  Normalization to `0`
happens at specific read sites, not globally: an absent cell reads as
`0`, the aggregate functions silently skip `NaN` and non-numeric
arguments, and the WC output formatter maps `NaN` and non-numeric reads
to `0`. -/
theorem C8_amended :
    getCellValue "wc" "A1" (executeCalc wbC8 []).1 = JSVal.num JSNum.inf
      ∧ (∀ sheetName cell : String, getCellValue sheetName cell [] = JSVal.num (JSNum.fin 0))
      ∧ excelFunctions.SUM [JSVal.num JSNum.nan, JSVal.num (JSNum.fin 5)]
          = JSVal.num (JSNum.fin 5)
      ∧ getValWC [("wc!X1", JSVal.num JSNum.nan)] "X1" = JSNum.fin 0
      ∧ getValWC [] "X1" = JSNum.fin 0 := by
  refine ⟨?_, ?_, ?_, ?_, ?_⟩
  · with_unfolding_all decide
  · intro sheetName cell
    rfl
  · with_unfolding_all decide
  · with_unfolding_all decide
  · with_unfolding_all decide

/-! ### Claim C4: failure containment -/

/-- The declared formulas of a sheet (empty for unknown sheets). -/
def sheetFormulas (wb : Workbook) (sheetName : String) : List FormulaDef :=
  match wb.sheets.lookup sheetName with
  | some sd => sd.formulas
  | none => []

theorem lookup_cons_isSome (p : String × JSVal) (st : Store) (k : String)
    (h : (st.lookup k).isSome = true) :
    (((p :: st : Store).lookup k)).isSome = true := by
  rw [List.lookup]
  cases hpk : k == p.1 with
  | true => simp [hpk]
  | false => simp only [hpk]; exact h

theorem setCellValue_lookup_qual_isSome (sheetName cell : String) (v : JSVal) (st : Store) :
    (((setCellValue sheetName cell v st).lookup (sheetName ++ "!" ++ cell))).isSome = true := by
  rw [setCellValue, List.lookup]
  cases hpk : (sheetName ++ "!" ++ cell) == cell with
  | true => simp [hpk]
  | false =>
    simp only [hpk]
    rw [List.lookup]
    simp [beq_self_eq_true]

theorem calcFold_preserves_isSome (sheetName : String) (k : String) :
    ∀ (fds : List FormulaDef) (s : EngineState),
      ((s.1.lookup k)).isSome = true →
      (((fds.foldl (calcStep sheetName) s).1.lookup k)).isSome = true := by
  intro fds
  induction fds with
  | nil => intro s h; exact h
  | cons fd rest ih =>
    intro s h
    rw [List.foldl_cons]
    apply ih
    exact lookup_cons_isSome _ _ _ (lookup_cons_isSome _ _ _ h)

theorem calcFold_mem_isSome (sheetName : String) :
    ∀ (fds : List FormulaDef) (s : EngineState) (fd : FormulaDef),
      fd ∈ fds →
      (((fds.foldl (calcStep sheetName) s).1.lookup (sheetName ++ "!" ++ fd.cell))).isSome
        = true := by
  intro fds
  induction fds with
  | nil => intro s fd h; simp at h
  | cons fd0 rest ih =>
    intro s fd h
    rw [List.foldl_cons]
    rcases List.mem_cons.mp h with h | h
    · subst h
      apply calcFold_preserves_isSome
      exact setCellValue_lookup_qual_isSome _ _ _ _
    · exact ih _ fd h

/-- Workbook with a malformed first formula followed by a well-formed
one. -/
def wbC4 : Workbook :=
  { sheets := [("S", { static_values := [], formulas := [⟨"A1", "SUM(("⟩, ⟨"B1", "1+1"⟩] })],
    inputs := [] }

set_option maxRecDepth 2000 in
/-- C4.  Every runtime failure during a formula's evaluation is caught
and yields `0` for that formula alone: `calculateSheet` is total and
stores a value for every declared formula cell of the sheet no matter
what the formula texts are, a malformed formula evaluates to `0` with
the traversal guard restored, and the run continues — a well-formed
formula after a malformed one still computes its value. -/
theorem C4_claim :
    (∀ (wb : Workbook) (sheetName : String) (s : EngineState) (fd : FormulaDef),
        fd ∈ sheetFormulas wb sheetName →
        (((calculateSheet wb sheetName s).1.lookup (sheetName ++ "!" ++ fd.cell))).isSome
          = true)
      ∧ evaluateFormula [] [] "SUM((" "S" "A1" = (JSVal.num (JSNum.fin 0), [])
      ∧ getCellValue "S" "A1" (calculateSheet wbC4 "S" ([], [])).1 = JSVal.num (JSNum.fin 0)
      ∧ getCellValue "S" "B1" (calculateSheet wbC4 "S" ([], [])).1 = JSVal.num (JSNum.fin 2) := by
  refine ⟨?_, ?_, ?_, ?_⟩
  · intro wb sheetName s fd hmem
    rw [sheetFormulas] at hmem
    rw [calculateSheet]
    cases hlk : wb.sheets.lookup sheetName with
    | none => rw [hlk] at hmem; simp at hmem
    | some sd =>
      rw [hlk] at hmem
      exact calcFold_mem_isSome sheetName sd.formulas s fd hmem
  · with_unfolding_all decide
  · with_unfolding_all decide
  · with_unfolding_all decide

/-- C4, witness: the coverage statement applied to the concrete
workbook `wbC4`, its sheet `S`, and its first (malformed) formula. -/
theorem C4_claim_witness :
    (((calculateSheet wbC4 "S" ([], [])).1.lookup ("S" ++ "!" ++ "A1"))).isSome = true :=
  C4_claim.1 wbC4 "S" ([], []) ⟨"A1", "SUM(("⟩ (by with_unfolding_all decide)

/-! ### Claim C6: range expansion -/

/-- Store with `S!C10 = 5`, `S!C11 = "abc"`, `S!C12 = 15`. -/
def stC6 : Store :=
  setCellValue "S" "C12" (JSVal.num (JSNum.fin 15))
    (setCellValue "S" "C11" (JSVal.str "abc")
      (setCellValue "S" "C10" (JSVal.num (JSNum.fin 5)) []))

set_option maxRecDepth 2000 in
/-- C6.  Expanding a range yields, in row order from the start row to
the end row, the numeric values stored in the range's column on the
current sheet, skipping (not coercing) every cell whose stored value is
not a number or is `NaN`; in particular `SUM(C10:C12)` over `5`,
`"abc"`, `15` evaluates to `20`. -/
theorem C6_claim :
    (∀ (st : Store) (sheetName : String) (col : List Char) (a b : ℕ),
        col ≠ [] → (∀ c ∈ col, c.isUpper = true) →
        evaluateRange st ((col ++ natReprL a).asString) ((col ++ natReprL b).asString) sheetName
          = (List.range' a (b + 1 - a)).filterMap (fun row =>
              match getCellValue sheetName ((col ++ natReprL row).asString) st with
              | JSVal.num x => if x.isNaNb then none else some x
              | _ => none))
      ∧ evaluateFormula stC6 [] "SUM(C10:C12)" "S" "D1" = (JSVal.num (JSNum.fin 20), [])
      ∧ evaluateRange stC6 "C10" "C12" "S" = [JSNum.fin 5, JSNum.fin 15] := by
  refine ⟨?_, ?_, ?_⟩
  · intro st sheetName col a b hne hcol
    have hfa : findCellMatch (((col ++ natReprL a).asString).data) = some (col, natReprL a) := by
      have : ((col ++ natReprL a).asString).data = col ++ natReprL a := rfl
      rw [this]
      exact findCellMatch_append col a hne hcol
    have hfb : findCellMatch (((col ++ natReprL b).asString).data) = some (col, natReprL b) := by
      have : ((col ++ natReprL b).asString).data = col ++ natReprL b := rfl
      rw [this]
      exact findCellMatch_append col b hne hcol
    rw [evaluateRange, hfa, hfb]
    simp only [digitsToNat_natReprL]
    rw [foldl_push_filterMap (fun row => getCellValue sheetName ((col ++ natReprL row).asString) st)]
    rw [List.nil_append]
  · with_unfolding_all decide
  · with_unfolding_all decide

/-- C6, witness: the expansion characterization applied at the concrete
store, sheet `S`, column `C`, rows 10 through 12. -/
theorem C6_claim_witness :
    evaluateRange stC6 (("C".data ++ natReprL 10).asString) (("C".data ++ natReprL 12).asString)
        "S"
      = (List.range' 10 (12 + 1 - 10)).filterMap (fun row =>
          match getCellValue "S" (("C".data ++ natReprL row).asString) stC6 with
          | JSVal.num x => if x.isNaNb then none else some x
          | _ => none) :=
  C6_claim.1 stC6 "S" "C".data 10 12 (by decide) (by decide)

/-! ### Claim C7: substitution order -/

theorem bareMatchAt_none_of_word_prev (st : Store) (sheetName : String) (c : Char)
    (l : List Char) (h : isWordChar c = true) :
    bareMatchAt st sheetName (some c) l = none := by
  rw [bareMatchAt]
  simp [prevBoundary, h]

set_option maxRecDepth 2000 in
/-- C7.  Reference substitution happens in the fixed order — range
tokens first, then sheet-qualified references, then bare cell
references — so for every store and sheet the whole range token inside
`SUM(C10:C12)` is consumed by the range pass and replaced by the JSON
serialization of its expanded values; the later passes leave the result
untouched, and in particular the range's endpoints are never resolved
as two separate bare cell references. -/
theorem C7_claim :
    ∀ (st : Store) (sheetName : String),
      rewriteRefs st sheetName ("SUM(C10:C12)".data)
        = "SUM(".data ++ jsonArrL (evaluateRange st "C10" "C12" sheetName) ++ ")".data := by
  intro st sheetName
  have hdata : "SUM(C10:C12)".data = ['S', 'U', 'M', '(', 'C', '1', '0', ':', 'C', '1', '2', ')'] :=
    rfl
  have hc10 : (['C', '1', '0'] : List Char).asString = "C10" := rfl
  have hc12 : (['C', '1', '2'] : List Char).asString = "C12" := rfl
  set json := jsonArrL (evaluateRange st "C10" "C12" sheetName) with hjson
  have hrg : rangeReplace st sheetName ['S', 'U', 'M', '(', 'C', '1', '0', ':', 'C', '1', '2', ')']
      = 'S' :: 'U' :: 'M' :: '(' :: (json ++ [')']) := by
    simp [rangeReplace, rangeReplaceAux, rangeMatchAt, List.takeWhile, List.dropWhile,
      Char.isUpper, Char.isDigit, hc10, hc12, hjson]
  have hbang : '!' ∉ 'S' :: 'U' :: 'M' :: '(' :: (json ++ [')']) := by
    intro h
    simp only [List.mem_cons] at h
    rcases h with h | h | h | h | h
    · exact absurd h (by decide)
    · exact absurd h (by decide)
    · exact absurd h (by decide)
    · exact absurd h (by decide)
    · rcases List.mem_append.mp h with h | h
      · exact jsonChars_no_bang '!' (jsonArrL_mem _ '!' h) rfl
      · exact absurd (List.mem_singleton.mp h) (by decide)
  have hup : ∀ c ∈ json ++ [')'], c.isUpper = false := by
    intro c hc
    rcases List.mem_append.mp hc with h | h
    · exact jsonChars_no_upper c (jsonArrL_mem _ c h)
    · rw [List.mem_singleton.mp h]; decide
  have hql : qualReplace st ('S' :: 'U' :: 'M' :: '(' :: (json ++ [')']))
      = 'S' :: 'U' :: 'M' :: '(' :: (json ++ [')']) :=
    qualReplace_id st _ hbang
  have hm0 : bareMatchAt st sheetName none ('S' :: 'U' :: 'M' :: '(' :: (json ++ [')'])) = none := by
    rw [bareMatchAt]
    simp [prevBoundary, List.takeWhile, List.dropWhile, Char.isUpper, Char.isDigit]
  have hS := bareMatchAt_none_of_word_prev st sheetName 'S'
    ('U' :: 'M' :: '(' :: (json ++ [')'])) (by decide)
  have hU := bareMatchAt_none_of_word_prev st sheetName 'U'
    ('M' :: '(' :: (json ++ [')'])) (by decide)
  have hM := bareMatchAt_none_of_word_prev st sheetName 'M'
    ('(' :: (json ++ [')'])) (by decide)
  have hlen : ('S' :: 'U' :: 'M' :: '(' :: (json ++ [')'])).length + 1
      = ((json ++ [')']).length + 1) + 4 := by
    simp [List.length_cons]
  have hbr : bareReplace st sheetName ('S' :: 'U' :: 'M' :: '(' :: (json ++ [')']))
      = 'S' :: 'U' :: 'M' :: '(' :: (json ++ [')']) := by
    rw [bareReplace, hlen]
    have hid := bareReplaceAux_id st sheetName ((json ++ [')']).length + 1) (some '(')
      (json ++ [')']) hup
    simp only [bareReplaceAux, hm0, hS, hU, hM, hid]
  rw [rewriteRefs, hdata, hrg, hql, hbr]
  have hsum : "SUM(".data = ['S', 'U', 'M', '('] := rfl
  rw [hsum]
  simp [List.cons_append, List.append_assoc]

/-! ### Claim C3: static values vs formula results across sheets -/

/-- Two-sheet workbook: sheet `Alpha` declares the static value `n` at
`C1`; sheet `Beta` has the single formula `B2 = Alpha!C1`. -/
def wbStatic (n : ℤ) : Workbook :=
  { sheets :=
      [("Alpha", { static_values := [⟨"C1", JSVal.num (JSNum.fin (n : ℚ))⟩], formulas := [] }),
       ("Beta", { static_values := [], formulas := [⟨"B2", "Alpha!C1"⟩] })],
    inputs := [] }

/-- Two-sheet workbook where `Alpha!C1` is instead a formula result
(`41+1`), still referenced by `Beta!B2`. -/
def wbForm : Workbook :=
  { sheets :=
      [("Alpha", { static_values := [], formulas := [⟨"C1", "41+1"⟩] }),
       ("Beta", { static_values := [], formulas := [⟨"B2", "Alpha!C1"⟩] })],
    inputs := [] }

theorem qualReplace_alphaC1 (st : Store) :
    qualReplace st ['A', 'l', 'p', 'h', 'a', '!', 'C', '1']
      = renderCellValue (getCellValue "Alpha" "C1" st) := by
  have ha : (['A', 'l', 'p', 'h', 'a'] : List Char).asString = "Alpha" := rfl
  have hc : (['C', '1'] : List Char).asString = "C1" := rfl
  simp [qualReplace, qualReplaceAux, qualMatchAt, isQualChar, List.takeWhile, List.dropWhile,
    Char.isAlpha, Char.isUpper, Char.isLower, Char.isDigit, ha, hc]

set_option maxHeartbeats 1000000 in
/-- Evaluating the formula text `Alpha!C1` (at `Beta!B2`, empty guard)
substitutes the store's value for `Alpha!C1` and evaluates it back to
the same integer. -/
theorem evaluateFormula_alpharef (st : Store) (n : ℤ)
    (h : getCellValue "Alpha" "C1" st = JSVal.num (JSNum.fin (n : ℚ))) :
    evaluateFormula st [] "Alpha!C1" "Beta" "B2" = (JSVal.num (JSNum.fin (n : ℚ)), []) := by
  have hnot : ("Beta" ++ "!" ++ "B2") ∉ ([] : List String) := List.not_mem_nil _
  have hdata : "Alpha!C1".data = ['A', 'l', 'p', 'h', 'a', '!', 'C', '1'] := rfl
  have hrg : rangeReplace st "Beta" ['A', 'l', 'p', 'h', 'a', '!', 'C', '1']
      = ['A', 'l', 'p', 'h', 'a', '!', 'C', '1'] :=
    rangeReplace_id st "Beta" _ (by decide)
  have hq := qualReplace_alphaC1 st
  rw [h, renderCellValue_int] at hq
  have hbare : bareReplace st "Beta" (intReprL n) = intReprL n :=
    bareReplace_id st "Beta" _ (fun c hc =>
      (by decide : ∀ x ∈ '-' :: digitChars, x.isUpper = false) c (intReprL_mem n c hc))
  have hfn := fnReplace_id_of_sign_digits (intReprL n) (intReprL_mem n)
  simp only [evaluateFormula, if_neg hnot, rewriteRefs, hdata, hrg, hq, hbare, hfn,
    evalJS_intReprL]
  simp [List.erase_cons_head]

set_option maxHeartbeats 1000000 in
/-- After `setInputs`, the static value of `Alpha!C1` is in the cell
store (static loading happens before any formula evaluation). -/
theorem wbStatic_store (n : ℤ) :
    getCellValue "Alpha" "C1" (setInputs (wbStatic n) []) = JSVal.num (JSNum.fin (n : ℚ)) := by
  have hnd : applyConversions (applyAliases ([] : InputData)) = [] := by
    simp [applyAliases, applyConversions, convertIf, fieldNameMapping, setProp, List.lookup]
  simp only [setInputs, hnd]
  simp [applyCatalog, applyOverrides, applyStatics, applyFinalFixes, getProp, setCellValue,
    getCellValue, List.lookup, wbStatic]

set_option maxRecDepth 2000 in
set_option maxHeartbeats 1000000 in
/-- C3.  Static values of every sheet are loaded into the Cell Store by
`setInputs`, before any formula evaluation, so a formula on sheet `Beta`
referencing a static value declared on sheet `Alpha` computes that value
(here: any integer `n`) under both sheet orders; but when `Alpha!C1` is
itself a formula result, the reference is correct only when `Alpha` is
processed first — processing `Beta` first reads the not-yet-computed
reference as `0`. -/
theorem C3_claim :
    ∀ n : ℤ,
      (getCellValue "Beta" "B2"
          ((calculateAllOrder (wbStatic n) ["Alpha", "Beta"] (setInputs (wbStatic n) [], [])).1)
        = JSVal.num (JSNum.fin (n : ℚ)))
      ∧ (getCellValue "Beta" "B2"
          ((calculateAllOrder (wbStatic n) ["Beta", "Alpha"] (setInputs (wbStatic n) [], [])).1)
        = JSVal.num (JSNum.fin (n : ℚ)))
      ∧ getCellValue "Beta" "B2"
          ((calculateAllOrder wbForm ["Alpha", "Beta"] (setInputs wbForm [], [])).1)
        = JSVal.num (JSNum.fin 42)
      ∧ getCellValue "Beta" "B2"
          ((calculateAllOrder wbForm ["Beta", "Alpha"] (setInputs wbForm [], [])).1)
        = JSVal.num (JSNum.fin 0) := by
  intro n
  have hst := wbStatic_store n
  have hef := evaluateFormula_alpharef (setInputs (wbStatic n) []) n hst
  have hlkA : (wbStatic n).sheets.lookup "Alpha"
      = some { static_values := [⟨"C1", JSVal.num (JSNum.fin (n : ℚ))⟩], formulas := [] } := by
    simp [wbStatic, List.lookup]
  have hlkB : (wbStatic n).sheets.lookup "Beta"
      = some { static_values := [], formulas := [⟨"B2", "Alpha!C1"⟩] } := by
    simp [wbStatic, List.lookup]
  have hA : ∀ s : EngineState, calculateSheet (wbStatic n) "Alpha" s = s := by
    intro s
    rw [calculateSheet, hlkA]
    rfl
  have hB : calculateSheet (wbStatic n) "Beta" (setInputs (wbStatic n) [], [])
      = (setCellValue "Beta" "B2" (JSVal.num (JSNum.fin (n : ℚ))) (setInputs (wbStatic n) []),
          []) := by
    rw [calculateSheet, hlkB]
    simp only [List.foldl_cons, List.foldl_nil, calcStep, hef]
  refine ⟨?_, ?_, ?_, ?_⟩
  · simp only [calculateAllOrder, List.foldl_cons, List.foldl_nil]
    rw [hA, hB]
    simp [getCellValue, setCellValue, List.lookup]
  · simp only [calculateAllOrder, List.foldl_cons, List.foldl_nil]
    rw [hB, hA]
    simp [getCellValue, setCellValue, List.lookup]
  · with_unfolding_all decide
  · with_unfolding_all decide

/-! ### Claim C9: statics overwrite inputs, except the final hard-pinned cells -/

/-- Workbook whose cell `Assumptions.1!F84` both carries a declared
static value `99` and is the mapped cell of the named input `x`. -/
def wbC9c : Workbook :=
  { sheets :=
      [("Assumptions.1",
        { static_values := [⟨"F84", JSVal.num (JSNum.fin 99)⟩], formulas := [] })],
    inputs := [("x", ⟨"Assumptions.1", "F84", none⟩)] }

set_option maxRecDepth 2000 in
/-- C9, counterexample.  For a cell that carries a declared static value
and is also the mapped cell of a supplied named input, the claim says the
store holds the static value when `setInputs` completes.  For
`Assumptions.1!F84` this fails: the hard-pinned write `F84 = 12` runs
after static loading, so the store holds `12`, not the static `99` (nor
the supplied input `5`). -/
theorem C9_counterexample :
    getCellValue "Assumptions.1" "F84" (setInputs wbC9c [("x", JSVal.num (JSNum.fin 5))])
        = JSVal.num (JSNum.fin 12)
      ∧ JSVal.num (JSNum.fin 12) ≠ JSVal.num (JSNum.fin 99)
      ∧ JSVal.num (JSNum.fin 12) ≠ JSVal.num (JSNum.fin 5) := by
  refine ⟨?_, by decide, by decide⟩
  with_unfolding_all decide

/-- Workbook whose cell `S!G7` carries the declared static value `v` and
is the mapped cell of the named input `x`. -/
def wbC9i (v : JSVal) : Workbook :=
  { sheets := [("S", { static_values := [⟨"G7", v⟩], formulas := [] })],
    inputs := [("x", ⟨"S", "G7", none⟩)] }

/-- Workbook whose cell `Assumptions.1!I28` (target of the unconditional
base-rent compatibility override) carries the declared static value
`v`. -/
def wbC9ii (v : JSVal) : Workbook :=
  { sheets :=
      [("Assumptions.1", { static_values := [⟨"I28", v⟩], formulas := [] })],
    inputs := [] }

set_option maxRecDepth 2000 in
set_option maxHeartbeats 2000000 in
/-- C9, amended.  Declared static values are written after the
named-input mapping and after the compatibility overrides, so for a cell
that both carries a declared static value and is the mapped cell of a
caller-supplied named input (or of one of the overrides, such as
`Assumptions.1!I28`), the store holds the static value when `setInputs`
completes — except for the hard-pinned cells `Assumptions.1!F84` and
`F72`–`F76`, which are unconditionally overwritten after static loading
(see the counterexample). -/
theorem C9_amended :
    (∀ v w : JSVal, ¬v = JSVal.null → ¬v = JSVal.undef →
        getCellValue "S" "G7" (setInputs (wbC9i v) [("x", w)]) = v)
      ∧ (∀ v : JSVal, ¬v = JSVal.null → ¬v = JSVal.undef →
          getCellValue "Assumptions.1" "I28"
              (setInputs (wbC9ii v) [("monthly_rent", JSVal.num (JSNum.fin 3))])
            = v) := by
  constructor
  · intro v w h1 h2
    have hnd : applyConversions (applyAliases [("x", w)]) = [("x", w)] := by
      simp [applyAliases, applyConversions, convertIf, fieldNameMapping, setProp, List.lookup]
    simp only [setInputs, hnd]
    by_cases hw : w = JSVal.undef
    · simp [applyCatalog, applyOverrides, applyStatics, applyFinalFixes, getProp, setProp,
        setCellValue, getCellValue, List.lookup, wbC9i, h1, h2, hw]
    · by_cases hwn : w = JSVal.null
      · simp [applyCatalog, applyOverrides, applyStatics, applyFinalFixes, getProp, setProp,
          setCellValue, getCellValue, List.lookup, wbC9i, h1, h2, hw, hwn]
      · simp [applyCatalog, applyOverrides, applyStatics, applyFinalFixes, getProp, setProp,
          setCellValue, getCellValue, List.lookup, wbC9i, h1, h2, hw, hwn]
  · intro v h1 h2
    have hnd : applyConversions (applyAliases [("monthly_rent", JSVal.num (JSNum.fin 3))])
        = [("marketing_expenses", JSVal.num (JSNum.fin 3)),
           ("monthly_rent", JSVal.num (JSNum.fin 3))] := by
      simp [applyAliases, applyConversions, convertIf, fieldNameMapping, setProp, List.lookup]
    simp only [setInputs, hnd]
    simp [applyCatalog, applyOverrides, applyStatics, applyFinalFixes, getProp, setProp,
      setCellValue, getCellValue, List.lookup, wbC9ii, JSVal.truthy, h1, h2,
      (by norm_num : ¬(3 : ℚ) = 0)]

/-- C9, witness for the amended theorem: a static `7` at `S!G7` beats the
supplied input `3` mapped to the same cell. -/
theorem C9_amended_witness :
    getCellValue "S" "G7"
        (setInputs (wbC9i (JSVal.num (JSNum.fin 7))) [("x", JSVal.num (JSNum.fin 3))])
      = JSVal.num (JSNum.fin 7) :=
  C9_amended.1 (JSVal.num (JSNum.fin 7)) (JSVal.num (JSNum.fin 3)) (by decide) (by decide)

/-! ### Claim C10: the unconditional I28 / F84 / F72–F76 writes -/

/-- The empty workbook (no sheets, no declared inputs). -/
def wbE : Workbook := { sheets := [], inputs := [] }

set_option maxRecDepth 2000 in
set_option maxHeartbeats 1000000 in
/-- C10, counterexample.  The claim says `Assumptions.1!I28` is written
to the supplied monthly-rent value if present.  The code uses JavaScript
truthiness (`normalizedData.monthly_rent || 7500`), so the supplied
value `0` — present but falsy — is replaced by `7500`. -/
theorem C10_counterexample :
    getCellValue "Assumptions.1" "I28"
        (setInputs wbE [("monthly_rent", JSVal.num (JSNum.fin 0))])
        = JSVal.num (JSNum.fin 7500)
      ∧ JSVal.num (JSNum.fin 7500) ≠ JSVal.num (JSNum.fin 0) := by
  refine ⟨?_, by decide⟩
  have hnd : applyConversions (applyAliases [("monthly_rent", JSVal.num (JSNum.fin 0))])
      = [("marketing_expenses", JSVal.num (JSNum.fin 0)),
         ("monthly_rent", JSVal.num (JSNum.fin 0))] := by
    simp [applyAliases, applyConversions, convertIf, fieldNameMapping, setProp, List.lookup]
  simp only [setInputs, hnd]
  simp [applyCatalog, applyOverrides, applyStatics, applyFinalFixes, getProp, setProp,
    setCellValue, getCellValue, List.lookup, wbE, JSVal.truthy]

/-- The final value that the override block leaves at
`Assumptions.1!I28`: the normalized `monthly_rent` when truthy,
otherwise `7500`. -/
theorem overrides_I28_value (nd : InputData) (st : Store) :
    getCellValue "Assumptions.1" "I28" (applyOverrides nd st)
      = (match nd.lookup "monthly_rent" with
         | some v => if v.truthy then v else JSVal.num (JSNum.fin 7500)
         | none => JSVal.num (JSNum.fin 7500)) := by
  rcases he : getProp nd "electricity" with _ | ev <;>
    rcases hr : getProp nd "rent" with _ | rv <;>
      rcases hm2 : getProp nd "marketing_expenses" with _ | mv2 <;>
        rcases ho : getProp nd "other_expenses" with _ | ov <;>
          rcases hm : nd.lookup "monthly_rent" with _ | v <;>
            simp [applyOverrides, he, hr, hm2, ho, hm, setCellValue, getCellValue, List.lookup,
              JSVal.truthy]

theorem aliasFold_lookup_ne (input : InputData) (k : String) :
    ∀ (maps : List (String × String)) (nd : InputData), (∀ p ∈ maps, ¬(p.2 = k)) →
      (maps.foldl
          (fun nd p =>
            match input.lookup p.1 with
            | some v => if v = JSVal.undef || v = JSVal.null then nd else setProp p.2 v nd
            | none => nd)
          nd).lookup k
        = nd.lookup k := by
  intro maps
  induction maps with
  | nil => intro nd _; rfl
  | cons p rest ih =>
    intro nd h
    rw [List.foldl_cons]
    rw [ih _ fun q hq => h q (List.mem_cons_of_mem p hq)]
    cases hl : input.lookup p.1 with
    | none => rfl
    | some v =>
      by_cases hv : v = JSVal.undef || v = JSVal.null
      · simp [hv]
      · have hk : (k == p.2) = false := by
          simp only [beq_eq_false_iff_ne, ne_eq]
          intro hkk
          exact h p (List.mem_cons_self p rest) (hkk ▸ rfl)
        simp [hv, setProp, List.lookup, hk]

theorem applyAliases_lookup_monthly (input : InputData) :
    (applyAliases input).lookup "monthly_rent" = input.lookup "monthly_rent" := by
  rw [applyAliases]
  exact aliasFold_lookup_ne input "monthly_rent" fieldNameMapping input (by decide)

theorem convertIf_lookup_ne (key k : String) (bound : ℚ) (f : JSVal → JSVal) (nd : InputData)
    (h : ¬(key = k)) :
    (convertIf key bound f nd).lookup k = nd.lookup k := by
  rw [convertIf]
  cases hl : nd.lookup key with
  | none => rfl
  | some v =>
    by_cases hg : v.truthy && JSNum.gtQ v.toNumber bound
    · have hk : (k == key) = false := by
        simp only [beq_eq_false_iff_ne, ne_eq]
        intro hkk; exact h hkk.symm
      simp [hg, setProp, List.lookup, hk]
    · simp [hg]

theorem applyConversions_lookup_monthly (nd : InputData) :
    (applyConversions nd).lookup "monthly_rent" = nd.lookup "monthly_rent" := by
  rw [applyConversions]
  rw [convertIf_lookup_ne _ _ _ _ _ (by decide)]
  rw [convertIf_lookup_ne _ _ _ _ _ (by decide)]
  rw [convertIf_lookup_ne _ _ _ _ _ (by decide)]
  rw [convertIf_lookup_ne _ _ _ _ _ (by decide)]
  rw [convertIf_lookup_ne _ _ _ _ _ (by decide)]
  rw [convertIf_lookup_ne _ _ _ _ _ (by decide)]

set_option maxHeartbeats 1000000 in
/-- C10, amended.  On every run `setInputs` unconditionally writes
`Assumptions.1!I28` — to the supplied monthly-rent value when that value
is truthy (present and nonzero), otherwise to `7500` — and finally
writes `Assumptions.1!F84 = 12` and `F72`–`F76 = 0` after static-value
loading, so the F-cell values cannot be overwritten by declared static
values of any workbook. -/
theorem C10_amended :
    (∀ (wb : Workbook) (input : InputData),
        getCellValue "Assumptions.1" "F84" (setInputs wb input) = JSVal.num (JSNum.fin 12))
      ∧ (∀ (wb : Workbook) (input : InputData),
          getCellValue "Assumptions.1" "F72" (setInputs wb input) = JSVal.num (JSNum.fin 0)
            ∧ getCellValue "Assumptions.1" "F73" (setInputs wb input) = JSVal.num (JSNum.fin 0)
            ∧ getCellValue "Assumptions.1" "F74" (setInputs wb input) = JSVal.num (JSNum.fin 0)
            ∧ getCellValue "Assumptions.1" "F75" (setInputs wb input) = JSVal.num (JSNum.fin 0)
            ∧ getCellValue "Assumptions.1" "F76" (setInputs wb input) = JSVal.num (JSNum.fin 0))
      ∧ (∀ (nd : InputData) (st : Store),
          getCellValue "Assumptions.1" "I28" (applyOverrides nd st)
            = (match nd.lookup "monthly_rent" with
               | some v => if v.truthy then v else JSVal.num (JSNum.fin 7500)
               | none => JSVal.num (JSNum.fin 7500)))
      ∧ (∀ input : InputData,
          getCellValue "Assumptions.1" "I28" (setInputs wbE input)
            = (match input.lookup "monthly_rent" with
               | some v => if v.truthy then v else JSVal.num (JSNum.fin 7500)
               | none => JSVal.num (JSNum.fin 7500))) := by
  refine ⟨?_, ?_, ?_, ?_⟩
  · intro wb input
    simp only [setInputs]
    simp [applyFinalFixes, setCellValue, getCellValue, List.lookup]
  · intro wb input
    refine ⟨?_, ?_, ?_, ?_, ?_⟩ <;>
      (simp only [setInputs]
       simp [applyFinalFixes, setCellValue, getCellValue, List.lookup])
  · exact overrides_I28_value
  · intro input
    have hcat : applyCatalog wbE (applyConversions (applyAliases input)) [] = [] := rfl
    have hstat : ∀ st : Store, applyStatics wbE st = st := fun st => rfl
    have hff : ∀ st : Store,
        getCellValue "Assumptions.1" "I28" (applyFinalFixes st)
          = getCellValue "Assumptions.1" "I28" st := by
      intro st
      simp [applyFinalFixes, setCellValue, getCellValue, List.lookup]
    simp only [setInputs, hcat, hstat, hff, overrides_I28_value]
    rw [applyConversions_lookup_monthly, applyAliases_lookup_monthly]

end CalcEngine
